import Mathlib

/-
  Verification of the constraint engine of the semver repository
  (src/constraints.go) against its natural-language specification.

  The repository file under src/ is constraints.go.  The semantic-version
  value type (version.go) and the range-algebra value types
  (rangeConstraint, unionConstraint, any, none, Union, Intersection) are
  code of this repository that is not under src/; they are modelled from
  the specification (sections 3 and 4.3), as marked on each definition.
-/

namespace Semver

/-- Modelled from the spec: the external `Version` value type (spec section 3):
an ordered tuple (major, minor, patch, prerelease, build) with a total order;
equality ignores build metadata.  The prerelease ordering rules are left to
the external comparator by the spec and none of the claims exercise them, so
the model covers release versions: triples (major, minor, patch) of naturals
with lexicographic order and componentwise equality. -/
structure Version where
  major : Nat
  minor : Nat
  patch : Nat
deriving DecidableEq, Repr

/-- Modelled from the spec: the external comparator `Version.Compare`,
returning -1, 0 or 1 for less, equal, greater under the lexicographic
order on (major, minor, patch). -/
def Version.compare (a b : Version) : Int :=
  if a.major < b.major then -1
  else if b.major < a.major then 1
  else if a.minor < b.minor then -1
  else if b.minor < a.minor then 1
  else if a.patch < b.patch then -1
  else if b.patch < a.patch then 1
  else 0

/-- Modelled from the spec: `Version.LessThan`. -/
def Version.LessThan (a b : Version) : Bool := decide (a.compare b < 0)

/-- Modelled from the spec: `Version.GreaterThan`. -/
def Version.GreaterThan (a b : Version) : Bool := decide (a.compare b > 0)

/-- Modelled from the spec: `Version.Equal` (equality of the compared
components; build metadata, which equality ignores, is not modelled). -/
def Version.Equal (a b : Version) : Bool := decide (a.compare b = 0)

/-- The strict lexicographic order on version triples, as a Prop. -/
def vlt (a b : Version) : Prop :=
  a.major < b.major ∨
    (a.major = b.major ∧
      (a.minor < b.minor ∨ (a.minor = b.minor ∧ a.patch < b.patch)))

instance (a b : Version) : Decidable (vlt a b) := by
  unfold vlt; infer_instance

/-- The reflexive lexicographic order on version triples. -/
def vle (a b : Version) : Prop := vlt a b ∨ a = b

instance (a b : Version) : Decidable (vle a b) := by
  unfold vle; infer_instance

theorem compare_eq_zero_iff (a b : Version) : a.compare b = 0 ↔ a = b := by
  cases a; cases b
  simp only [Version.compare, Version.mk.injEq]
  split_ifs <;> simp_all <;> omega

theorem compare_lt_zero_iff (a b : Version) : a.compare b < 0 ↔ vlt a b := by
  cases a; cases b
  simp only [Version.compare, vlt]
  split_ifs <;> simp_all <;> omega

theorem compare_pos_iff (a b : Version) : 0 < a.compare b ↔ vlt b a := by
  cases a; cases b
  simp only [Version.compare, vlt]
  split_ifs <;> simp_all <;> omega

theorem compare_nonneg_iff (a b : Version) : 0 ≤ a.compare b ↔ vle b a := by
  rw [vle]
  constructor
  · intro h
    rcases lt_or_eq_of_le h with h1 | h1
    · exact Or.inl ((compare_pos_iff a b).mp h1)
    · exact Or.inr (((compare_eq_zero_iff a b).mp h1.symm).symm)
  · rintro (h | h)
    · exact le_of_lt ((compare_pos_iff a b).mpr h)
    · exact le_of_eq (((compare_eq_zero_iff a b).mpr h.symm)).symm

theorem vle_iff_not_vlt (a b : Version) : vle a b ↔ ¬ vlt b a := by
  unfold vle vlt
  cases a; cases b
  simp only [Version.mk.injEq]
  omega

theorem lessThan_iff (a b : Version) : Version.LessThan a b = true ↔ vlt a b := by
  unfold Version.LessThan
  rw [decide_eq_true_iff]
  exact compare_lt_zero_iff a b

theorem equal_iff (a b : Version) : Version.Equal a b = true ↔ a = b := by
  unfold Version.Equal
  rw [decide_eq_true_iff]
  exact compare_eq_zero_iff a b

/-! ### String utilities shared by both pipelines -/

/-- Numeric value of a digit run. -/
def natOfDigits (ds : List Char) : Nat :=
  ds.foldl (fun n c => n * 10 + (c.toNat - 48)) 0

/-! Modelled from the spec: the external version text parser `NewVersion`
(spec sections 3 and 6): `v?major(.minor)?(.patch)?` with numeric
components, missing components defaulting to zero, split below into one
helper per component.  Prerelease and build suffixes belong to the
external comparator, which the model restricts to release versions, so a
version text carrying them is rejected here; every version text the
claims exercise is prerelease-free. -/

/-- The optional leading letter v of a version text. -/
def stripV : List Char → List Char
  | 'v' :: rest => rest
  | s => s

/-- The patch component: a non-empty digit run ending the text. -/
def verPatch (maj mino : Nat) (s : List Char) : Option Version :=
  match s.takeWhile Char.isDigit, s.dropWhile Char.isDigit with
  | [], _ => Option.none
  | ds, [] => some ⟨maj, mino, natOfDigits ds⟩
  | _, _ => Option.none

/-- The minor component: a non-empty digit run, optionally followed by a
dotted patch component; a missing patch defaults to zero. -/
def verMinor (maj : Nat) (s : List Char) : Option Version :=
  match s.takeWhile Char.isDigit, s.dropWhile Char.isDigit with
  | [], _ => Option.none
  | ds, [] => some ⟨maj, natOfDigits ds, 0⟩
  | ds, '.' :: r4 => verPatch maj (natOfDigits ds) r4
  | _, _ => Option.none

/-- The major component: a non-empty digit run, optionally followed by a
dotted minor component; missing components default to zero. -/
def verMajor (s : List Char) : Option Version :=
  match s.takeWhile Char.isDigit, s.dropWhile Char.isDigit with
  | [], _ => Option.none
  | ds, [] => some ⟨natOfDigits ds, 0, 0⟩
  | ds, '.' :: r2 => verMinor (natOfDigits ds) r2
  | _, _ => Option.none

def verOfChars (s : List Char) : Option Version := verMajor (stripV s)

/-- Modelled from the spec: `NewVersion` on a string. -/
def NewVersion (s : String) : Option Version := verOfChars s.data

/-- Split on every non-overlapping occurrence of a (non-empty) separator,
left to right: the behavior of Go strings.Split used by both constructors
(src/constraints.go lines 23, 26, 47, 50). -/
def splitSubAux (sep : List Char) : Nat → List Char → List Char → List (List Char)
  | _, acc, [] => [acc.reverse]
  | 0, acc, s => [acc.reverse ++ s]
  | fuel+1, acc, c :: rest =>
    if sep.isPrefixOf (c :: rest) then
      acc.reverse :: splitSubAux sep fuel [] ((c :: rest).drop sep.length)
    else
      splitSubAux sep fuel (c :: acc) rest

def splitSub (sep s : List Char) : List (List Char) :=
  splitSubAux sep (s.length + 1) [] s

/-- Replace the first occurrence of `old` by `new`: Go strings.Replace with
count 1 (src/constraints.go line 629). -/
def replFirstAux (old new : List Char) : Nat → List Char → List Char
  | _, [] => if old = [] then new else []
  | 0, s => s
  | fuel+1, c :: rest =>
    if old.isPrefixOf (c :: rest) then new ++ ((c :: rest).drop old.length)
    else c :: replFirstAux old new fuel rest

def replFirst (old new s : List Char) : List Char :=
  replFirstAux old new (s.length + 1) s

/-- The character class `[0-9|x|X|\*]` of the version-component pattern in
cvRegex (src/constraints.go line 612); note the literal bar is a member. -/
def classChar (c : Char) : Bool :=
  c.isDigit || c == '|' || c == 'x' || c == 'X' || c == '*'

/-- The character class `[0-9A-Za-z\-]` of prerelease and build identifiers
in cvRegex (src/constraints.go lines 613-614). -/
def identChar (c : Char) : Bool :=
  c.isDigit || c.isAlpha || c == '-'

/-- Go regexp whitespace class for the \s escape. -/
def wsChar (c : Char) : Bool :=
  c == ' ' || c == '\t' || c == '\n' || c == '\x0c' || c == '\r'

/-- Go strings.TrimPrefix of the dot, as used on m[4] and m[5]
(src/constraints.go lines 305, 309). -/
def trimDot : List Char → List Char
  | '.' :: r => r
  | s => s

/-- Shallow embedding of `isX` (src/constraints.go lines 616-619): the
lowercased component equals the letter x or the star.  The empty string is
not an x. -/
def isX (x : List Char) : Bool :=
  decide (x.map Char.toLower = ['x']) || decide (x.map Char.toLower = ['*'])

/-! ### The clause grammar

constraintRegex is `^\s*(ops)\s*(cv)\s*$` (src/constraints.go lines
252-255) where cv is cvRegex (lines 612-614).  Anchored between `^` and
`\s*$`, greedy matching of each cv group is equivalent to the backtracking
regex semantics: every character a greedy group could give back is a
component or identifier character, which none of the later pattern parts
(a dot, a hyphen, a plus, whitespace, end) can consume.  The predicate
alternation is resolved by trying longer operators first; at most one
operator can lead to an overall match because the extra character of a
longer operator is never a valid start of cv. -/

/-- The capture groups of one cv occurrence: m2 the whole version pattern,
m3 the major component, m4/m5 the dotted minor/patch groups, m6 the
prerelease group with its leading hyphen. -/
structure CVCaps where
  m2 : List Char
  m3 : List Char
  m4 : List Char
  m5 : List Char
  m6 : List Char
deriving DecidableEq, Repr

/-- Greedy `(\.[0-9|x|X|\*]+)?`. -/
def dotGroup (s : List Char) : List Char × List Char :=
  match s with
  | '.' :: r =>
    let p := r.span classChar
    if p.1 = [] then ([], s) else ('.' :: p.1, p.2)
  | _ => ([], s)

/-- Greedy `(\.[0-9A-Za-z\-]+)*`. -/
def dotIdentStar : Nat → List Char → List Char × List Char
  | 0, s => ([], s)
  | fuel+1, s =>
    match s with
    | '.' :: r =>
      let p := r.span identChar
      if p.1 = [] then ([], s)
      else
        let q := dotIdentStar fuel p.2
        ('.' :: p.1 ++ q.1, q.2)
    | _ => ([], s)

/-- Greedy `(-([0-9A-Za-z\-]+(\.[0-9A-Za-z\-]+)*))?` (and the build variant
with a plus sign via the `lead` parameter). -/
def tagGroup (lead : Char) (s : List Char) : List Char × List Char :=
  match s with
  | c :: r =>
    if c = lead then
      let p := r.span identChar
      if p.1 = [] then ([], s)
      else
        let q := dotIdentStar r.length p.2
        (c :: p.1 ++ q.1, q.2)
    else ([], s)
  | _ => ([], s)

/-- Greedy match of one cv occurrence. -/
def cvGreedy (s : List Char) : Option (CVCaps × List Char) :=
  let t := match s with
    | 'v' :: r => (['v'], r)
    | _ => (([] : List Char), s)
  let mj := t.2.span classChar
  if mj.1 = [] then Option.none else
  let g4 := dotGroup mj.2
  let g5 := dotGroup g4.2
  let g6 := tagGroup '-' g5.2
  let g8 := tagGroup '+' g6.2
  some ({ m2 := t.1 ++ mj.1 ++ g4.1 ++ g5.1 ++ g6.1 ++ g8.1,
          m3 := mj.1, m4 := g4.1, m5 := g5.1, m6 := g6.1 }, g8.2)

/-- The capture groups of a clause match: the predicate m[1] and the cv
groups. -/
structure ClauseParts where
  pred : String
  m2 : List Char
  m3 : List Char
  m4 : List Char
  m5 : List Char
  m6 : List Char
deriving DecidableEq, Repr

/-- The fixed predicate vocabulary (the keys of constraintOps,
src/constraints.go lines 217-230), longer operators first. -/
def opsList : List String := ["<=", "=<", ">=", "=>", "!=", "~>", "<", ">", "=", "~", "^", ""]

def matchClauseOps : List String → List Char → Option ClauseParts
  | [], _ => Option.none
  | op :: more, s =>
    let attempt : Option ClauseParts :=
      if op.data.isPrefixOf s then
        let s2 := (s.drop op.data.length).dropWhile wsChar
        match cvGreedy s2 with
        | some (caps, r) =>
          if r.all wsChar then
            some { pred := op, m2 := caps.m2, m3 := caps.m3,
                   m4 := caps.m4, m5 := caps.m5, m6 := caps.m6 }
          else Option.none
        | Option.none => Option.none
      else Option.none
    match attempt with
    | some p => some p
    | Option.none => matchClauseOps more s

/-- constraintRegex.FindStringSubmatch on one clause (src/constraints.go
lines 293, 335). -/
def matchClause (c : String) : Option ClauseParts :=
  matchClauseOps opsList (c.data.dropWhile wsChar)

/-! ### The legacy pipeline (Constraints / constraint) -/

/-- Shallow embedding of the clause struct `constraint` (src/constraints.go
lines 263-283).  The Go struct also stores the callback field `function`;
it always holds `constraintOps[predicate]` (line 323), so the embedding
dispatches on `predicate` instead (see `ccheck`). -/
structure constraint where
  msg : String
  con : Version
  predicate : String
  orig : String
  minorDirty : Bool
  dirty : Bool
deriving DecidableEq, Repr

/-- The constraintMsg table (src/constraints.go lines 232-245). -/
def constraintMsg : String → String
  | "" => "%s is not equal to %s"
  | "=" => "%s is not equal to %s"
  | "!=" => "%s is equal to %s"
  | ">" => "%s is less than or equal to %s"
  | "<" => "%s is greater than or equal to %s"
  | ">=" => "%s is less than %s"
  | "=>" => "%s is less than %s"
  | "<=" => "%s is greater than %s"
  | "=<" => "%s is greater than %s"
  | "~" => "%s does not have same major and minor version as %s"
  | "~>" => "%s does not have same major and minor version as %s"
  | "^" => "%s does not have same major version as %s"
  | _ => ""

/-- Shallow embedding of constraintNotEqual (src/constraints.go lines
498-513). -/
def constraintNotEqual (v : Version) (c : constraint) : Bool :=
  if c.dirty then
    if c.con.major ≠ v.major then true
    else if c.con.minor ≠ v.minor ∧ ¬(c.minorDirty = true) then true
    else if c.minorDirty then false
    else false
  else !(v.Equal c.con)

/-- Shallow embedding of constraintGreaterThan (lines 515-517). -/
def constraintGreaterThan (v : Version) (c : constraint) : Bool :=
  decide (v.compare c.con = 1)

/-- Shallow embedding of constraintLessThan (lines 519-531). -/
def constraintLessThan (v : Version) (c : constraint) : Bool :=
  if ¬(c.dirty = true) then decide (v.compare c.con < 0)
  else if v.major > c.con.major then false
  else if v.minor > c.con.minor ∧ ¬(c.minorDirty = true) then false
  else true

/-- Shallow embedding of constraintGreaterThanEqual (lines 533-535). -/
def constraintGreaterThanEqual (v : Version) (c : constraint) : Bool :=
  decide (v.compare c.con ≥ 0)

/-- Shallow embedding of constraintLessThanEqual (lines 537-549). -/
def constraintLessThanEqual (v : Version) (c : constraint) : Bool :=
  if ¬(c.dirty = true) then decide (v.compare c.con ≤ 0)
  else if v.major > c.con.major then false
  else if v.minor > c.con.minor ∧ ¬(c.minorDirty = true) then false
  else true

/-- Shallow embedding of constraintTilde (lines 557-577), including the
special case that accepts everything when the anchor is 0.0.0. -/
def constraintTilde (v : Version) (c : constraint) : Bool :=
  if v.LessThan c.con then false
  else if c.con.major = 0 ∧ c.con.minor = 0 ∧ c.con.patch = 0 then true
  else if v.major ≠ c.con.major then false
  else if v.minor ≠ c.con.minor ∧ ¬(c.minorDirty = true) then false
  else true

/-- The boolean value of constraintTildeOrEqual (lines 581-588); its state
effect on msg is `checkUpd`. -/
def constraintTildeOrEqual (v : Version) (c : constraint) : Bool :=
  if c.dirty then constraintTilde v c
  else v.Equal c.con

/-- Shallow embedding of constraintCaret (lines 596-606). -/
def constraintCaret (v : Version) (c : constraint) : Bool :=
  if v.LessThan c.con then false
  else if v.major ≠ c.con.major then false
  else true

/-- The boolean value of `(c *constraint).check(v)` = `c.function(v, c)`
(src/constraints.go lines 286-288), dispatching through the constraintOps
table (lines 217-230).  A predicate outside the table would be a nil
callback in Go; it is unreachable because the regex only produces table
keys. -/
def ccheck (c : constraint) (v : Version) : Bool :=
  match c.predicate with
  | "" => constraintTildeOrEqual v c
  | "=" => constraintTildeOrEqual v c
  | "!=" => constraintNotEqual v c
  | ">" => constraintGreaterThan v c
  | "<" => constraintLessThan v c
  | ">=" => constraintGreaterThanEqual v c
  | "=>" => constraintGreaterThanEqual v c
  | "<=" => constraintLessThanEqual v c
  | "=<" => constraintLessThanEqual v c
  | "~" => constraintTilde v c
  | "~>" => constraintTilde v c
  | "^" => constraintCaret v c
  | _ => false

/-- The state effect of `(c *constraint).check(v)`: constraintTildeOrEqual
(the callback of the predicates "" and "=") assigns
`c.msg = constraintMsg["~"]` whenever the clause is dirty (src line 583);
every other callback leaves the clause unchanged. -/
def checkUpd (c : constraint) (_v : Version) : constraint :=
  if (c.predicate = "" ∨ c.predicate = "=") ∧ c.dirty then
    { c with msg := constraintMsg "~" }
  else c

/-- Parse the zero-filled anchor text and build the clause struct
(src/constraints.go lines 314-331). -/
def buildLegacyCore (m : ClauseParts) (ver : List Char) (md d : Bool) :
    Except String constraint :=
  match verOfChars ver with
  | Option.none => .error "constraint Parser Error"
  | some con =>
    .ok { msg := constraintMsg m.pred, con := con, predicate := m.pred,
          orig := String.mk m.m2, minorDirty := md, dirty := d }

/-- The body of parseConstraint after the regex match (src/constraints.go
lines 298-331): zero-fill wildcard components recording the dirtiness
flags, parse the anchor version, build the clause struct. -/
def buildLegacy (m : ClauseParts) : Except String constraint :=
  if isX m.m3 then buildLegacyCore m ("0.0.0".data) false true
  else if isX (trimDot m.m4) then
    buildLegacyCore m (m.m3 ++ ".0.0".data ++ m.m6) true true
  else if isX (trimDot m.m5) then
    buildLegacyCore m (m.m3 ++ m.m4 ++ ".0".data ++ m.m6) false true
  else buildLegacyCore m m.m2 false false

/-- Shallow embedding of parseConstraint (src/constraints.go lines
292-332). -/
def parseConstraint (c : String) : Except String constraint :=
  match matchClause c with
  | Option.none => .error ("improper constraint: " ++ c)
  | some m => buildLegacy m

/-! ### The hyphen-range rewrite

constraintRangeRegex is `\s*(cv)\s*-\s*(cv)\s*` (src/constraints.go lines
257-259), used unanchored through FindAllStringSubmatch (line 622).
Unanchored, the first cv may have to give back a hyphen-bearing suffix of
its prerelease or build group so that the literal hyphen of the range can
match, so this matcher enumerates the cv alternatives in the backtracking
priority order (longest/greedy first, rightmost group backtracking first)
and takes the first alternative under which the rest of the pattern
matches.  The inter-group `\s*` occurrences never need to give characters
back because the pattern parts after them cannot consume whitespace. -/

/-- All parses of `[0-9A-Za-z\-]+` (or of `[0-9|x|X|\*]+` via the `cls`
parameter), longest first. -/
def runAlts (cls : Char → Bool) (s : List Char) : List (List Char × List Char) :=
  let m := (s.span cls).1
  (List.range m.length).map (fun k => (m.take (m.length - k), s.drop (m.length - k)))

/-- All parses of `(\.[0-9A-Za-z\-]+)*`, more iterations first, greedy
identifiers first within an iteration. -/
def starAlts : Nat → List Char → List (List Char × List Char)
  | 0, s => [([], s)]
  | fuel+1, s =>
    (match s with
     | '.' :: r =>
       (runAlts identChar r).flatMap (fun p =>
         (starAlts fuel p.2).map (fun q => ('.' :: p.1 ++ q.1, q.2)))
     | _ => []) ++ [([], s)]

/-- All parses of `[0-9A-Za-z\-]+(\.[0-9A-Za-z\-]+)*`, priority order. -/
def preAlts (s : List Char) : List (List Char × List Char) :=
  (runAlts identChar s).flatMap (fun p =>
    (starAlts p.2.length p.2).map (fun q => (p.1 ++ q.1, q.2)))

/-- All parses of an optional group with a literal lead character
(`(\.c+)?`, `(-pre)?`, `(\+build)?`): present (greedy) first, absent
last. -/
def optAlts (lead : Char) (alts : List Char → List (List Char × List Char))
    (s : List Char) : List (List Char × List Char) :=
  (match s with
   | c :: r =>
     if c = lead then (alts r).map (fun p => (c :: p.1, p.2)) else []
   | [] => []) ++ [([], s)]

/-- All parses of one cv occurrence, in backtracking priority order. -/
def cvAlts (s : List Char) : List (CVCaps × List Char) :=
  let vA : List (List Char × List Char) :=
    (match s with
     | 'v' :: r => [(['v'], r)]
     | _ => []) ++ [([], s)]
  vA.flatMap (fun vp =>
  (runAlts classChar vp.2).flatMap (fun mj =>
  (optAlts '.' (runAlts classChar) mj.2).flatMap (fun g4 =>
  (optAlts '.' (runAlts classChar) g4.2).flatMap (fun g5 =>
  (optAlts '-' preAlts g5.2).flatMap (fun g6 =>
  (optAlts '+' preAlts g6.2).map (fun g8 =>
    ({ m2 := vp.1 ++ mj.1 ++ g4.1 ++ g5.1 ++ g6.1 ++ g8.1,
       m3 := mj.1, m4 := g4.1, m5 := g5.1, m6 := g6.1 }, g8.2)))))))

/-- One match of constraintRangeRegex: the full matched text v[0], the two
whole-cv captures v[1] and v[11], and the remainder of the input after the
match. -/
structure RangeMatch where
  m0 : List Char
  c1 : List Char
  c11 : List Char
  rest : List Char
deriving DecidableEq, Repr

/-- Attempt a match of constraintRangeRegex starting exactly at the head of
`s`. -/
def matchRangeAt (s : List Char) : Option RangeMatch :=
  let w1 := s.takeWhile wsChar
  let s1 := s.dropWhile wsChar
  (cvAlts s1).findSome? (fun p =>
    let w2 := p.2.takeWhile wsChar
    match p.2.dropWhile wsChar with
    | '-' :: s4 =>
      let w3 := s4.takeWhile wsChar
      let s5 := s4.dropWhile wsChar
      (cvAlts s5).findSome? (fun q =>
        let w4 := q.2.takeWhile wsChar
        some { m0 := w1 ++ p.1.m2 ++ w2 ++ ['-'] ++ w3 ++ q.1.m2 ++ w4,
               c1 := p.1.m2, c11 := q.1.m2, rest := q.2.dropWhile wsChar })
    | _ => Option.none)

/-- FindAllStringSubmatch: successive leftmost matches, resuming after each
match. -/
def scanRanges : Nat → List Char → List RangeMatch
  | 0, _ => []
  | fuel+1, s =>
    match matchRangeAt s with
    | some m => m :: scanRanges fuel m.rest
    | Option.none =>
      match s with
      | [] => []
      | _ :: t => scanRanges fuel t

/-- Shallow embedding of rewriteRange (src/constraints.go lines 621-633):
each found hyphen range `v[0]` has its first occurrence in the working
string replaced by `">= v[1], <= v[11]"`. -/
def rewriteRange (i : String) : String :=
  let ms := scanRanges (i.data.length + 1) i.data
  match ms with
  | [] => i
  | _ =>
    String.mk (ms.foldl (fun o m =>
      replFirst m.m0 (">= ".data ++ m.c1 ++ ", <= ".data ++ m.c11) o) i.data)

/-- The groups of clause texts a constraint expression splits into: on
`||` into groups, each on `,` into clauses, after the hyphen-range
rewrite (src/constraints.go lines 21-27). -/
def clauseGroupsOf (c : String) : List (List String) :=
  (splitSub ("||".data) (rewriteRange c).data).map
    (fun v => (splitSub (",".data) v).map String.mk)

/-- The clause lists of the legacy `Constraints` value. -/
structure Constraints where
  constraints : List (List constraint)
deriving DecidableEq, Repr

/-- The loop-with-early-return shape shared by both constructors: build a
value per element, returning the first error encountered. -/
def mapExcept {α β : Type} (f : α → Except String β) : List α → Except String (List β)
  | [] => .ok []
  | a :: rest =>
    match f a with
    | .error e => .error e
    | .ok b =>
      match mapExcept f rest with
      | .error e => .error e
      | .ok bs => .ok (b :: bs)

/-- Shallow embedding of NewConstraint (src/constraints.go lines 18-41):
rewrite hyphen ranges, split on `||` then on `,`, parse every clause,
failing the whole construction on the first clause error. -/
def NewConstraint (c : String) : Except String Constraints :=
  match mapExcept (fun g => mapExcept parseConstraint g) (clauseGroupsOf c) with
  | .error e => .error e
  | .ok groups => .ok ⟨groups⟩

/-- One AND-group of Check: test clauses in order, stopping at the first
failure (the break at src/constraints.go line 74); the second component is
the clause list after the msg mutations done by the checks that ran. -/
def groupCheckRun (v : Version) : List constraint → Bool × List constraint
  | [] => (true, [])
  | c :: rest =>
    let c2 := checkUpd c v
    if ccheck c v then
      let r := groupCheckRun v rest
      (r.1, c2 :: r.2)
    else (false, c2 :: rest)

/-- The OR-loop of Check: groups in order, stopping at the first fully
satisfied group (src/constraints.go lines 69-81). -/
def checkRunGroups (v : Version) : List (List constraint) → Bool × List (List constraint)
  | [] => (false, [])
  | g :: rest =>
    let r := groupCheckRun v g
    if r.1 then (true, r.2 :: rest)
    else
      let q := checkRunGroups v rest
      (q.1, r.2 :: q.2)

/-- Shallow embedding of Constraints.Check (src/constraints.go lines
67-84) together with its state effect: the Go receiver shares the clause
pointers with the caller, so the msg mutations performed by the clause
checks survive the call; the second component is the mutated value. -/
def CheckRun (cs : Constraints) (v : Version) : Bool × Constraints :=
  let r := checkRunGroups v cs.constraints
  (r.1, ⟨r.2⟩)

/-- The boolean Constraints.Check returns. -/
def Check (cs : Constraints) (v : Version) : Bool := (CheckRun cs v).1

/-- Modelled from the spec: the rendering of a Version inside a
validation message (major.minor.patch). -/
def versionString (w : Version) : String :=
  toString w.major ++ "." ++ toString w.minor ++ "." ++ toString w.patch

/-- fmt.Errorf(c.msg, v, c.orig) (src/constraints.go line 95): the two %s
verbs of the message template receive the version and the original clause
text. -/
def fmtMsg (tmpl : String) (v : Version) (orig : String) : String :=
  String.mk (replFirst ("%s".data) orig.data
    (replFirst ("%s".data) (versionString v).data tmpl.data))

/-- One AND-group of Validate: every clause is tested (no break), each
failing clause appends its templated message (src/constraints.go lines
93-99). -/
def groupValidateRun (v : Version) : List constraint → (Bool × List String) × List constraint
  | [] => ((true, []), [])
  | c :: rest =>
    let c2 := checkUpd c v
    let r := groupValidateRun v rest
    if ccheck c v then ((r.1.1, r.1.2), c2 :: r.2)
    else ((false, fmtMsg c2.msg v c.orig :: r.1.2), c2 :: r.2)

/-- The OR-loop of Validate with the accumulated error slice `e`: a fully
satisfied group returns true with an empty reason list (discarding `e`,
as the Go `return true, []error{}` does); otherwise the failing messages
of every group accumulate onto `e` (src/constraints.go lines 90-106). -/
def validateRunGroups (v : Version) (e : List String) :
    List (List constraint) → (Bool × List String) × List (List constraint)
  | [] => ((false, e), [])
  | g :: rest =>
    let r := groupValidateRun v g
    if r.1.1 then ((true, []), r.2 :: rest)
    else
      let q := validateRunGroups v (e ++ r.1.2) rest
      (q.1, r.2 :: q.2)

/-- Shallow embedding of Constraints.Validate (src/constraints.go lines
88-107) with its state effect, like `CheckRun`. -/
def ValidateRun (cs : Constraints) (v : Version) : (Bool × List String) × Constraints :=
  let r := validateRunGroups v [] cs.constraints
  (r.1, ⟨r.2⟩)

/-- The (bool, reasons) pair Constraints.Validate returns. -/
def Validate (cs : Constraints) (v : Version) : Bool × List String :=
  (ValidateRun cs v).1

/-! ### The range-algebra pipeline (NewConstraintNu) -/

/-- Modelled from the spec: the range-algebra Constraint family (spec
section 3).  The repository implements it as the interface Constraint with
implementations any, none, Version (exact), rangeConstraint and
unionConstraint in files not under src/; the model follows the variants of
the spec data model: Any, None, Exact, Range (optional inclusive or
exclusive bounds plus an exclusion list), Union and Intersection. -/
inductive RAC where
  | anyC : RAC
  | noneC : RAC
  | exact : Version → RAC
  | rangeC : Option Version → Bool → Option Version → Bool → List Version → RAC
  | unionC : List RAC → RAC
  | intersectionC : List RAC → RAC
deriving Repr

mutual

/-- Modelled from the spec: Satisfies over the range algebra (spec section
4.3): a Range admits a version strictly inside its bounds (or at a bound
marked inclusive) and not in its exclusion list; a Union admits when some
member does, an Intersection when all members do; Any always, None
never. -/
def satisfies : RAC → Version → Bool
  | .anyC, _ => true
  | .noneC, _ => false
  | .exact w, v => v.Equal w
  | .rangeC mn imin mx imax excl, v =>
    (match mn with
     | Option.none => true
     | some lo => if imin then decide (vle lo v) else decide (vlt lo v)) &&
    (match mx with
     | Option.none => true
     | some hi => if imax then decide (vle v hi) else decide (vlt v hi)) &&
    !(excl.contains v)
  | .unionC ms, v => satAny ms v
  | .intersectionC ms, v => satAll ms v

/-- OR over the members of a union. -/
def satAny : List RAC → Version → Bool
  | [], _ => false
  | c :: cs, v => satisfies c v || satAny cs v

/-- AND over the members of an intersection. -/
def satAll : List RAC → Version → Bool
  | [], _ => true
  | c :: cs, v => satisfies c v && satAll cs v

end

def isAnyC : RAC → Bool
  | .anyC => true
  | _ => false

def isNoneC : RAC → Bool
  | .noneC => true
  | _ => false

/-- Modelled from the spec: Union construction (spec section 4.3): drop
None operands, collapse to Any when any operand is Any, and a union of
zero operands is None. -/
def Union (cs : List RAC) : RAC :=
  if cs.any isAnyC then .anyC
  else
    match cs.filter (fun c => !(isNoneC c)) with
    | [] => .noneC
    | ks => .unionC ks

/-- Modelled from the spec: Intersection construction (spec section 4.3):
drop Any operands, collapse to None when any operand is None, and an
intersection of zero operands is Any. -/
def Intersection (cs : List RAC) : RAC :=
  if cs.any isNoneC then .noneC
  else
    match cs.filter (fun c => !(isAnyC c)) with
    | [] => .anyC
    | ks => .intersectionC ks

/-- Shallow embedding of expandCaret (src/constraints.go lines 395-408). -/
def expandCaret (v : Version) : RAC :=
  .rangeC (some v) true (some ⟨v.major + 1, 0, 0⟩) false []

/-- Shallow embedding of expandTilde (src/constraints.go lines 410-428). -/
def expandTilde (v : Version) (wildMinor : Bool) : RAC :=
  if wildMinor then expandCaret v
  else .rangeC (some v) true (some ⟨v.major, v.minor + 1, 0⟩) false []

/-- Shallow embedding of expandNeq (src/constraints.go lines 436-470). -/
def expandNeq (v : Version) (wildMinor wildPatch : Bool) : RAC :=
  if !(wildMinor || wildPatch) then
    .rangeC Option.none false Option.none false [v]
  else
    let lr := RAC.rangeC Option.none false (some v) false []
    let minv : Version :=
      if wildMinor then ⟨v.major + 1, v.minor, v.patch⟩
      else ⟨v.major, v.minor + 1, v.patch⟩
    let hr := RAC.rangeC (some minv) true Option.none false []
    Union [lr, hr]

/-- Shallow embedding of expandGreater (src/constraints.go lines 472-477). -/
def expandGreater (v : Version) (eq : Bool) : RAC :=
  .rangeC (some v) eq Option.none false []

/-- Shallow embedding of expandLess (src/constraints.go lines 479-495). -/
def expandLess (v : Version) (wildMinor wildPatch eq : Bool) : RAC :=
  let v2 : Version :=
    if wildMinor then ⟨v.major + 1, v.minor, v.patch⟩
    else if wildPatch then ⟨v.major, v.minor + 1, v.patch⟩
    else v
  .rangeC Option.none false (some v2) eq []

/-- Parse the zero-filled anchor text and select the expansion from the
predicate and the wildcard flags (src/constraints.go lines 356-392).
Note the predicate switch has no case for `~>` (unlike the legacy
constraintOps table), so `~>` falls through to the
Unrecognized-predicate error. -/
def buildNuCore (m : ClauseParts) (ver : List Char) (wildMinor wildPatch : Bool) :
    Except String RAC :=
  match verOfChars ver with
  | Option.none => .error "constraint Parser Error"
  | some v =>
    match m.pred with
    | "^" => .ok (expandCaret v)
    | "~" => .ok (expandTilde v wildMinor)
    | "!=" => .ok (expandNeq v wildMinor wildPatch)
    | "" => if wildPatch || wildMinor then .ok (expandTilde v wildMinor) else .ok (.exact v)
    | "=" => if wildPatch || wildMinor then .ok (expandTilde v wildMinor) else .ok (.exact v)
    | ">" => .ok (expandGreater v false)
    | ">=" => .ok (expandGreater v true)
    | "=>" => .ok (expandGreater v true)
    | "<" => .ok (expandLess v wildMinor wildPatch false)
    | "<=" => .ok (expandLess v wildMinor wildPatch true)
    | "=<" => .ok (expandLess v wildMinor wildPatch true)
    | p => .error ("Unrecognized predicate \"" ++ p ++ "\"")

def buildNu (m : ClauseParts) : Except String RAC :=
  if isX m.m3 then .ok .anyC
  else if isX (trimDot m.m4) then
    buildNuCore m (m.m3 ++ ".0.0".data ++ m.m6) true true
  else if isX (trimDot m.m5) then
    buildNuCore m (m.m3 ++ m.m4 ++ ".0".data ++ m.m6) false true
  else buildNuCore m m.m2 false false

def parseConstraintNu (c : String) : Except String RAC :=
  match matchClause c with
  | Option.none => .error ("Malformed constraint: " ++ c)
  | some m => buildNu m

/-- Shallow embedding of NewConstraintNu (src/constraints.go lines 43-64):
the same rewrite and splitting as NewConstraint, each group folded with
Intersection, the groups folded with Union. -/
def NewConstraintNu (c : String) : Except String RAC :=
  match mapExcept (fun g => mapExcept parseConstraintNu g) (clauseGroupsOf c) with
  | .error e => .error e
  | .ok groups => .ok (Union (groups.map Intersection))

/-! ### Helper lemmas -/

theorem bool_eq_decide {b : Bool} {P : Prop} [Decidable P]
    (h : b = true ↔ P) : b = decide P := by
  cases hb : b
  · rw [hb] at h
    symm
    rw [decide_eq_false_iff_not]
    intro hp
    exact absurd (h.mpr hp) (by simp)
  · rw [hb] at h
    symm
    rw [decide_eq_true_iff]
    exact h.mp rfl

theorem compare_eq_one_iff (a b : Version) : a.compare b = 1 ↔ vlt b a := by
  cases a; cases b
  simp only [Version.compare, vlt]
  split_ifs <;> simp_all <;> omega

theorem compare_nonpos_iff (a b : Version) : a.compare b ≤ 0 ↔ vle a b := by
  rw [vle]
  cases a; cases b
  simp only [Version.compare, vlt, Version.mk.injEq]
  split_ifs <;> simp_all <;> omega

/-- constraintTilde as a proposition. -/
theorem tilde_iff (v : Version) (c : constraint) :
    constraintTilde v c = true ↔
      (vle c.con v ∧
        ((c.con.major = 0 ∧ c.con.minor = 0 ∧ c.con.patch = 0) ∨
          (v.major = c.con.major ∧ (v.minor = c.con.minor ∨ c.minorDirty = true)))) := by
  have hv := vle_iff_not_vlt c.con v
  have hl := lessThan_iff v c.con
  unfold constraintTilde
  split_ifs with h1 h2 h3 h4 <;> (simp_all; try tauto)

/-- constraintCaret as a proposition. -/
theorem caret_iff (v : Version) (c : constraint) :
    constraintCaret v c = true ↔ (vle c.con v ∧ v.major = c.con.major) := by
  have hv := vle_iff_not_vlt c.con v
  have hl := lessThan_iff v c.con
  unfold constraintCaret
  split_ifs with h1 h2 <;> simp_all

/-- constraintNotEqual on a dirty clause as a proposition. -/
theorem notEqual_dirty_iff (v : Version) (c : constraint) (hd : c.dirty = true) :
    constraintNotEqual v c = true ↔
      (c.con.major ≠ v.major ∨ (c.con.minor ≠ v.minor ∧ c.minorDirty = false)) := by
  unfold constraintNotEqual
  rw [hd]
  simp only [if_true]
  split_ifs with h1 h2 h3 <;> simp_all

/-- constraintNotEqual on a clean clause as a proposition. -/
theorem notEqual_clean_iff (v : Version) (c : constraint) (hd : c.dirty = false) :
    constraintNotEqual v c = true ↔ v ≠ c.con := by
  have he := equal_iff v c.con
  unfold constraintNotEqual
  rw [hd]
  simp only [Bool.false_eq_true, if_false, Bool.not_eq_true']
  rw [Bool.eq_false_iff, ne_eq, he]

/-! Range-algebra satisfaction lemmas. -/

theorem satisfies_unionC (ms : List RAC) (v : Version) :
    satisfies (.unionC ms) v = ms.any (fun c => satisfies c v) := by
  rw [satisfies]
  induction ms with
  | nil => rfl
  | cons c cs ih => rw [satAny, List.any_cons, ih]

theorem satisfies_intersectionC (ms : List RAC) (v : Version) :
    satisfies (.intersectionC ms) v = ms.all (fun c => satisfies c v) := by
  rw [satisfies]
  induction ms with
  | nil => rfl
  | cons c cs ih => rw [satAll, List.all_cons, ih]

theorem isAnyC_satisfies {c : RAC} (h : isAnyC c = true) (v : Version) :
    satisfies c v = true := by
  cases c <;> simp_all [isAnyC, satisfies]

theorem isNoneC_satisfies {c : RAC} (h : isNoneC c = true) (v : Version) :
    satisfies c v = false := by
  cases c <;> simp_all [isNoneC, satisfies]

theorem any_filter_not_noneC (cs : List RAC) (v : Version) :
    (cs.filter (fun c => !(isNoneC c))).any (fun c => satisfies c v) =
      cs.any (fun c => satisfies c v) := by
  induction cs with
  | nil => rfl
  | cons c rest ih =>
    by_cases h : isNoneC c = true
    · simp [List.filter_cons, h, isNoneC_satisfies h v, ih]
    · simp only [Bool.not_eq_true] at h
      simp [List.filter_cons, h, ih]

theorem all_filter_not_anyC (cs : List RAC) (v : Version) :
    (cs.filter (fun c => !(isAnyC c))).all (fun c => satisfies c v) =
      cs.all (fun c => satisfies c v) := by
  induction cs with
  | nil => rfl
  | cons c rest ih =>
    by_cases h : isAnyC c = true
    · simp [List.filter_cons, h, isAnyC_satisfies h v, ih]
    · simp only [Bool.not_eq_true] at h
      simp [List.filter_cons, h, ih]

/-- Union means OR: the smart constructor preserves satisfaction. -/
theorem satisfies_Union (cs : List RAC) (v : Version) :
    satisfies (Union cs) v = cs.any (fun c => satisfies c v) := by
  unfold Union
  split_ifs with h
  · rw [satisfies]
    symm
    rw [List.any_eq_true] at h ⊢
    obtain ⟨c, hc, hany⟩ := h
    exact ⟨c, hc, isAnyC_satisfies hany v⟩
  · rcases hf : cs.filter (fun c => !(isNoneC c)) with _ | ⟨k, ks⟩
    · rw [satisfies]
      symm
      rw [← any_filter_not_noneC, hf]
      rfl
    · rw [← any_filter_not_noneC, hf, ← satisfies_unionC]

/-- Intersection means AND: the smart constructor preserves
satisfaction. -/
theorem satisfies_Intersection (cs : List RAC) (v : Version) :
    satisfies (Intersection cs) v = cs.all (fun c => satisfies c v) := by
  unfold Intersection
  split_ifs with h
  · rw [satisfies]
    symm
    rw [Bool.eq_false_iff]
    intro hall
    rw [List.all_eq_true] at hall
    rw [List.any_eq_true] at h
    obtain ⟨c, hc, hnone⟩ := h
    have := hall c hc
    rw [isNoneC_satisfies hnone v] at this
    exact Bool.false_ne_true this
  · rcases hf : cs.filter (fun c => !(isAnyC c)) with _ | ⟨k, ks⟩
    · rw [satisfies]
      symm
      rw [← all_filter_not_anyC, hf]
      rfl
    · rw [← all_filter_not_anyC, hf, ← satisfies_intersectionC]

/-! Structural lemmas about the Check and Validate loops. -/

theorem groupCheckRun_fst (v : Version) (g : List constraint) :
    (groupCheckRun v g).1 = g.all (fun c => ccheck c v) := by
  induction g with
  | nil => rfl
  | cons c rest ih =>
    rw [groupCheckRun, List.all_cons]
    cases h : ccheck c v
    · simp [h]
    · simp [h, ih]

theorem checkRunGroups_fst (v : Version) (gs : List (List constraint)) :
    (checkRunGroups v gs).1 = gs.any (fun g => g.all (fun c => ccheck c v)) := by
  induction gs with
  | nil => rfl
  | cons g rest ih =>
    rw [checkRunGroups, List.any_cons, ← groupCheckRun_fst v g]
    cases h : (groupCheckRun v g).1
    · simp [h, ih]
    · simp [h]

/-- Check is the OR over groups of the AND over clauses. -/
theorem Check_eq_anyAll (cs : Constraints) (v : Version) :
    Check cs v = cs.constraints.any (fun g => g.all (fun c => ccheck c v)) :=
  checkRunGroups_fst v cs.constraints

theorem check_single (c : constraint) (v : Version) :
    Check ⟨[[c]]⟩ v = ccheck c v := by
  rw [Check_eq_anyAll]
  cases h : ccheck c v <;> simp [h]

theorem check_pair (c₁ c₂ : constraint) (v : Version) :
    Check ⟨[[c₁, c₂]]⟩ v = (ccheck c₁ v && ccheck c₂ v) := by
  rw [Check_eq_anyAll]
  cases h1 : ccheck c₁ v <;> cases h2 : ccheck c₂ v <;> simp [h1, h2]

theorem groupValidateRun_fst (v : Version) (g : List constraint) :
    (groupValidateRun v g).1.1 = g.all (fun c => ccheck c v) := by
  induction g with
  | nil => rfl
  | cons c rest ih =>
    rw [groupValidateRun, List.all_cons]
    cases h : ccheck c v
    · simp [h]
    · simp [h, ih]

theorem groupValidateRun_msgs (v : Version) (g : List constraint) :
    (groupValidateRun v g).1.2 =
      (g.filter (fun c => !(ccheck c v))).map
        (fun c => fmtMsg (checkUpd c v).msg v c.orig) := by
  induction g with
  | nil => rfl
  | cons c rest ih =>
    rw [groupValidateRun, List.filter_cons]
    cases h : ccheck c v
    · simp [h, ih]
    · simp [h, ih]

theorem validateRunGroups_fst (v : Version) (gs : List (List constraint)) :
    ∀ e, (validateRunGroups v e gs).1.1 = gs.any (fun g => g.all (fun c => ccheck c v)) := by
  induction gs with
  | nil => intro e; rfl
  | cons g rest ih =>
    intro e
    rw [validateRunGroups, List.any_cons, ← groupValidateRun_fst v g]
    cases h : (groupValidateRun v g).1.1
    · simp [h, ih]
    · simp [h]

theorem validateRunGroups_true (v : Version) (gs : List (List constraint))
    (h : gs.any (fun g => g.all (fun c => ccheck c v)) = true) :
    ∀ e, (validateRunGroups v e gs).1 = (true, []) := by
  induction gs with
  | nil => simp at h
  | cons g rest ih =>
    intro e
    rw [validateRunGroups]
    cases hg : (groupValidateRun v g).1.1
    · rw [List.any_cons] at h
      rw [groupValidateRun_fst v g] at hg
      rw [hg] at h
      simp only [Bool.false_or] at h
      simp [hg, ih h]
    · simp [hg]

theorem validateRunGroups_msgs (v : Version) (gs : List (List constraint))
    (h : gs.any (fun g => g.all (fun c => ccheck c v)) = false) :
    ∀ e, (validateRunGroups v e gs).1.2 =
      e ++ gs.flatMap (fun g =>
        (g.filter (fun c => !(ccheck c v))).map
          (fun c => fmtMsg (checkUpd c v).msg v c.orig)) := by
  induction gs with
  | nil => intro e; simp [validateRunGroups]
  | cons g rest ih =>
    intro e
    rw [List.any_cons] at h
    rw [Bool.or_eq_false_iff] at h
    rw [validateRunGroups]
    have hg : (groupValidateRun v g).1.1 = false := by
      rw [groupValidateRun_fst v g]
      exact h.1
    rw [hg]
    simp only [Bool.false_eq_true, if_false, List.flatMap_cons]
    rw [ih h.2, groupValidateRun_msgs v g, List.append_assoc]

theorem lessThan_zero (v : Version) : Version.LessThan v ⟨0,0,0⟩ = false := by
  rw [Bool.eq_false_iff, ne_eq, lessThan_iff]
  cases v
  simp [vlt]

theorem toLower_digit (c : Char) (h : c.isDigit = true) : c.toLower = c := by
  unfold Char.isDigit at h
  rw [Bool.and_eq_true, decide_eq_true_eq, decide_eq_true_eq] at h
  have h1 : (48 : UInt32).toNat ≤ c.val.toNat := h.1
  have h2 : c.val.toNat ≤ (57 : UInt32).toNat := h.2
  show (if c.toNat ≥ 65 ∧ c.toNat ≤ 90 then Char.ofNat (c.toNat + 32) else c) = c
  rw [if_neg]
  intro hc
  have hc1 : 65 ≤ c.val.toNat := hc.1
  have hc2 : c.val.toNat ≤ 90 := hc.2
  have e1 : (48 : UInt32).toNat = 48 := rfl
  have e2 : (57 : UInt32).toNat = 57 := rfl
  omega

theorem isX_digits (ds : List Char) (h : ds.all Char.isDigit = true) :
    isX ds = false := by
  unfold isX
  rw [Bool.or_eq_false_iff, decide_eq_false_iff_not, decide_eq_false_iff_not]
  constructor
  · intro he
    cases ds with
    | nil => exact List.noConfusion he
    | cons d t =>
      rw [List.map_cons] at he
      injection he with he1 _
      rw [List.all_cons, Bool.and_eq_true] at h
      rw [toLower_digit d h.1] at he1
      rw [he1] at h
      exact absurd h.1 (by decide)
  · intro he
    cases ds with
    | nil => exact List.noConfusion he
    | cons d t =>
      rw [List.map_cons] at he
      injection he with he1 _
      rw [List.all_cons, Bool.and_eq_true] at h
      rw [toLower_digit d h.1] at he1
      rw [he1] at h
      exact absurd h.1 (by decide)

theorem stripV_digit (d : Char) (t : List Char) (h : Char.isDigit d = true) :
    stripV (d :: t) = d :: t := by
  unfold stripV
  split
  · next rest heq =>
    injection heq with h1 _
    rw [h1] at h
    exact absurd h (by decide)
  · rfl

/-- The head of the remainder, if any, fails the scan predicate. -/
def headNot (p : Char → Bool) : List Char → Prop
  | [] => True
  | c :: _ => p c = false

theorem scan_all_append (p : Char → Bool) :
    ∀ (xs ys : List Char), xs.all p = true → headNot p ys →
      (xs ++ ys).takeWhile p = xs ∧ (xs ++ ys).dropWhile p = ys := by
  intro xs
  induction xs with
  | nil =>
    intro ys _ hy
    cases ys with
    | nil => exact ⟨rfl, rfl⟩
    | cons c t =>
      have hc : p c = false := hy
      constructor
      · rw [List.nil_append, List.takeWhile_cons, if_neg (by rw [hc]; exact Bool.false_ne_true)]
      · rw [List.nil_append, List.dropWhile_cons, if_neg (by rw [hc]; exact Bool.false_ne_true)]
  | cons x xs ih =>
    intro ys h hy
    rw [List.all_cons, Bool.and_eq_true] at h
    obtain ⟨ih1, ih2⟩ := ih ys h.2 hy
    constructor
    · rw [List.cons_append, List.takeWhile_cons, if_pos h.1, ih1]
    · rw [List.cons_append, List.dropWhile_cons, if_pos h.1, ih2]

theorem verOfChars_major_only (d : Char) (t : List Char)
    (hall : (d :: t).all Char.isDigit = true) :
    verOfChars (d :: t) = some ⟨natOfDigits (d :: t), 0, 0⟩ ∧
    verOfChars ((d :: t) ++ ".0.0".data) = some ⟨natOfDigits (d :: t), 0, 0⟩ := by
  have hd : Char.isDigit d = true := by
    rw [List.all_cons, Bool.and_eq_true] at hall
    exact hall.1
  constructor
  · rw [verOfChars, stripV_digit d t hd]
    have h2 := scan_all_append Char.isDigit (d :: t) [] hall trivial
    rw [List.append_nil] at h2
    rw [verMajor, h2.1, h2.2]
  · rw [verOfChars, List.cons_append, stripV_digit d _ hd, ← List.cons_append]
    have h2 := scan_all_append Char.isDigit (d :: t) (".0.0".data) hall
      (by show Char.isDigit '.' = false; decide)
    rw [verMajor, h2.1, h2.2]
    rfl

theorem verOfChars_major_minor (d : Char) (t : List Char) (e : Char) (t2 : List Char)
    (hall : (d :: t).all Char.isDigit = true)
    (hall2 : (e :: t2).all Char.isDigit = true) :
    verOfChars ((d :: t) ++ ('.' :: (e :: t2))) =
      some ⟨natOfDigits (d :: t), natOfDigits (e :: t2), 0⟩ ∧
    verOfChars ((d :: t) ++ ('.' :: ((e :: t2) ++ ".0".data))) =
      some ⟨natOfDigits (d :: t), natOfDigits (e :: t2), 0⟩ := by
  have hd : Char.isDigit d = true := by
    rw [List.all_cons, Bool.and_eq_true] at hall
    exact hall.1
  constructor
  · rw [verOfChars, List.cons_append, stripV_digit d _ hd, ← List.cons_append]
    have h2 := scan_all_append Char.isDigit (d :: t) ('.' :: (e :: t2)) hall
      (by show Char.isDigit '.' = false; decide)
    rw [verMajor, h2.1, h2.2]
    have h3 := scan_all_append Char.isDigit (e :: t2) [] hall2 trivial
    rw [List.append_nil] at h3
    rw [show (match (d :: t), ('.' :: (e :: t2)) with
        | ([] : List Char), (_ : List Char) => (Option.none : Option Version)
        | ds, [] => some ⟨natOfDigits ds, 0, 0⟩
        | ds, '.' :: r2 => verMinor (natOfDigits ds) r2
        | _, _ => Option.none) = verMinor (natOfDigits (d :: t)) (e :: t2) from rfl]
    rw [verMinor, h3.1, h3.2]
  · rw [verOfChars, List.cons_append, stripV_digit d _ hd, ← List.cons_append]
    have h2 := scan_all_append Char.isDigit (d :: t) ('.' :: ((e :: t2) ++ ".0".data)) hall
      (by show Char.isDigit '.' = false; decide)
    rw [verMajor, h2.1, h2.2]
    have h3 := scan_all_append Char.isDigit (e :: t2) (".0".data) hall2
      (by show Char.isDigit '.' = false; decide)
    rw [show (match (d :: t), ('.' :: ((e :: t2) ++ ".0".data)) with
        | ([] : List Char), (_ : List Char) => (Option.none : Option Version)
        | ds, [] => some ⟨natOfDigits ds, 0, 0⟩
        | ds, '.' :: r2 => verMinor (natOfDigits ds) r2
        | _, _ => Option.none) = verMinor (natOfDigits (d :: t)) ((e :: t2) ++ ".0".data)
      from rfl]
    rw [verMinor, h3.1, h3.2]
    rfl

theorem ccheck_drops_msg_orig (msg1 msg2 orig1 orig2 : String) (con : Version)
    (p : String) (md d : Bool) (v : Version) :
    ccheck ⟨msg1, con, p, orig1, md, d⟩ v = ccheck ⟨msg2, con, p, orig2, md, d⟩ v := rfl

theorem omitted_minor_legacy (p : String) (d : Char) (t : List Char)
    (hall : (d :: t).all Char.isDigit = true) :
    buildLegacy ⟨p, d :: t, d :: t, [], [], []⟩ =
      Except.ok ⟨constraintMsg p, ⟨natOfDigits (d :: t), 0, 0⟩, p,
        String.mk (d :: t), false, false⟩ ∧
    buildLegacy ⟨p, (d :: t) ++ ".0.0".data, d :: t, ".0".data, ".0".data, []⟩ =
      Except.ok ⟨constraintMsg p, ⟨natOfDigits (d :: t), 0, 0⟩, p,
        String.mk ((d :: t) ++ ".0.0".data), false, false⟩ := by
  have hX := isX_digits (d :: t) hall
  constructor
  · rw [buildLegacy]
    simp only [hX, Bool.false_eq_true, if_false,
      show trimDot ([] : List Char) = [] from rfl,
      show isX ([] : List Char) = false from rfl]
    rw [buildLegacyCore, (verOfChars_major_only d t hall).1]
  · rw [buildLegacy]
    simp only [hX, Bool.false_eq_true, if_false,
      show trimDot (".0".data) = ['0'] from rfl,
      show isX ['0'] = false from by decide]
    rw [buildLegacyCore, (verOfChars_major_only d t hall).2]

theorem omitted_minor_nu (p : String) (d : Char) (t : List Char)
    (hall : (d :: t).all Char.isDigit = true) :
    buildNu ⟨p, d :: t, d :: t, [], [], []⟩ =
      buildNu ⟨p, (d :: t) ++ ".0.0".data, d :: t, ".0".data, ".0".data, []⟩ := by
  have hX := isX_digits (d :: t) hall
  rw [buildNu, buildNu]
  simp only [hX, Bool.false_eq_true, if_false,
    show trimDot ([] : List Char) = [] from rfl,
    show isX ([] : List Char) = false from rfl,
    show trimDot (".0".data) = ['0'] from rfl,
    show isX ['0'] = false from by decide]
  rw [buildNuCore, buildNuCore,
    (verOfChars_major_only d t hall).1, (verOfChars_major_only d t hall).2]

theorem omitted_patch_legacy (p : String) (d : Char) (t : List Char) (e : Char)
    (t2 : List Char) (hall : (d :: t).all Char.isDigit = true)
    (hall2 : (e :: t2).all Char.isDigit = true) :
    buildLegacy ⟨p, (d :: t) ++ ('.' :: (e :: t2)), d :: t, '.' :: (e :: t2), [], []⟩ =
      Except.ok ⟨constraintMsg p, ⟨natOfDigits (d :: t), natOfDigits (e :: t2), 0⟩, p,
        String.mk ((d :: t) ++ ('.' :: (e :: t2))), false, false⟩ ∧
    buildLegacy ⟨p, (d :: t) ++ ('.' :: ((e :: t2) ++ ".0".data)), d :: t,
        '.' :: (e :: t2), ".0".data, []⟩ =
      Except.ok ⟨constraintMsg p, ⟨natOfDigits (d :: t), natOfDigits (e :: t2), 0⟩, p,
        String.mk ((d :: t) ++ ('.' :: ((e :: t2) ++ ".0".data))), false, false⟩ := by
  have hX := isX_digits (d :: t) hall
  have hX2 := isX_digits (e :: t2) hall2
  constructor
  · rw [buildLegacy]
    simp only [hX, hX2, Bool.false_eq_true, if_false,
      show trimDot ('.' :: (e :: t2)) = e :: t2 from rfl,
      show trimDot ([] : List Char) = [] from rfl,
      show isX ([] : List Char) = false from rfl]
    rw [buildLegacyCore, (verOfChars_major_minor d t e t2 hall hall2).1]
  · rw [buildLegacy]
    simp only [hX, hX2, Bool.false_eq_true, if_false,
      show trimDot ('.' :: (e :: t2)) = e :: t2 from rfl,
      show trimDot (".0".data) = ['0'] from rfl,
      show isX ['0'] = false from by decide]
    rw [buildLegacyCore, (verOfChars_major_minor d t e t2 hall hall2).2]

theorem omitted_patch_nu (p : String) (d : Char) (t : List Char) (e : Char)
    (t2 : List Char) (hall : (d :: t).all Char.isDigit = true)
    (hall2 : (e :: t2).all Char.isDigit = true) :
    buildNu ⟨p, (d :: t) ++ ('.' :: (e :: t2)), d :: t, '.' :: (e :: t2), [], []⟩ =
      buildNu ⟨p, (d :: t) ++ ('.' :: ((e :: t2) ++ ".0".data)), d :: t,
        '.' :: (e :: t2), ".0".data, []⟩ := by
  have hX := isX_digits (d :: t) hall
  have hX2 := isX_digits (e :: t2) hall2
  rw [buildNu, buildNu]
  simp only [hX, hX2, Bool.false_eq_true, if_false,
    show trimDot ('.' :: (e :: t2)) = e :: t2 from rfl,
    show trimDot ([] : List Char) = [] from rfl,
    show isX ([] : List Char) = false from rfl,
    show trimDot (".0".data) = ['0'] from rfl,
    show isX ['0'] = false from by decide]
  rw [buildNuCore, buildNuCore,
    (verOfChars_major_minor d t e t2 hall hall2).1,
    (verOfChars_major_minor d t e t2 hall hall2).2]

/-! ### The claims -/

/-- Claim C1: for every Constraints value (in particular every successfully
parsed one) and every version v, Check returns true iff at least one
constraint group (one or-segment) has all of its comma-joined clauses
satisfied by v: Check computes the OR over groups of the AND over each
clauses of some group. -/
theorem C1_check_or_over_and (cs : Constraints) (v : Version) :
    Check cs v = true ↔ ∃ g ∈ cs.constraints, ∀ c ∈ g, ccheck c v = true := by
  rw [Check_eq_anyAll, List.any_eq_true]
  constructor
  · rintro ⟨g, hg, hall⟩
    exact ⟨g, hg, fun c hc => (List.all_eq_true.mp hall) c hc⟩
  · rintro ⟨g, hg, hall⟩
    exact ⟨g, hg, List.all_eq_true.mpr hall⟩

/-- Claim C2 counterexample: in the legacy pipeline, the clause ~0.0.0
(anchor 0.0.0, concrete minor) accepts version 1.0.0, which lies outside
the half-open range [0.0.0, 0.1.0) the claim prescribes, because
constraintTilde special-cases the anchor 0.0.0 to accept every version. -/
theorem C2_legacy_tilde_zero_cex :
    (NewConstraint "~0.0.0").map (fun cs => Check cs ⟨1,0,0⟩) = Except.ok true ∧
    decide (vle ⟨0,0,0⟩ ⟨1,0,0⟩ ∧ vlt ⟨1,0,0⟩ ⟨0,1,0⟩) = false := by
  exact ⟨rfl, by decide⟩

/-- Claim C2 amended: a caret clause is satisfied exactly by versions in
[v, (v.major+1).0.0) for every anchor including 0.0.0; a tilde clause with
wildcard minor (respectively concrete minor) is satisfied exactly by
[v, (v.major+1).0.0) (respectively [v, v.major.(v.minor+1).0)) for every
anchor other than 0.0.0, while at anchor 0.0.0 the legacy tilde accepts
every version; the range-algebra expansions expandCaret and expandTilde
realize the claimed ranges for every anchor including 0.0.0. -/
theorem C2_amended (w v : Version) (md d : Bool) (msg orig : String) :
    (ccheck ⟨msg, w, "^", orig, md, d⟩ v = true ↔
      (vle w v ∧ vlt v ⟨w.major + 1, 0, 0⟩)) ∧
    (¬(w.major = 0 ∧ w.minor = 0 ∧ w.patch = 0) →
      ((ccheck ⟨msg, w, "~", orig, true, d⟩ v = true ↔
        (vle w v ∧ vlt v ⟨w.major + 1, 0, 0⟩)) ∧
       (ccheck ⟨msg, w, "~", orig, false, d⟩ v = true ↔
        (vle w v ∧ vlt v ⟨w.major, w.minor + 1, 0⟩)))) ∧
    (ccheck ⟨msg, ⟨0, 0, 0⟩, "~", orig, md, d⟩ v = true) ∧
    (satisfies (expandCaret w) v = true ↔
      (vle w v ∧ vlt v ⟨w.major + 1, 0, 0⟩)) ∧
    (satisfies (expandTilde w true) v = true ↔
      (vle w v ∧ vlt v ⟨w.major + 1, 0, 0⟩)) ∧
    (satisfies (expandTilde w false) v = true ↔
      (vle w v ∧ vlt v ⟨w.major, w.minor + 1, 0⟩)) := by
  refine ⟨?_, ?_, ?_, ?_, ?_, ?_⟩
  · rw [show ccheck ⟨msg, w, "^", orig, md, d⟩ v =
        constraintCaret v ⟨msg, w, "^", orig, md, d⟩ from rfl, caret_iff]
    cases w; cases v
    simp [vle, vlt, Version.mk.injEq]
    try omega
  · intro h
    constructor
    · rw [show ccheck ⟨msg, w, "~", orig, true, d⟩ v =
          constraintTilde v ⟨msg, w, "~", orig, true, d⟩ from rfl, tilde_iff]
      cases w; cases v
      simp [vle, vlt, Version.mk.injEq] at h ⊢
      try omega
    · rw [show ccheck ⟨msg, w, "~", orig, false, d⟩ v =
          constraintTilde v ⟨msg, w, "~", orig, false, d⟩ from rfl, tilde_iff]
      cases w; cases v
      simp [vle, vlt, Version.mk.injEq] at h ⊢
      try omega
  · rw [show ccheck ⟨msg, ⟨0, 0, 0⟩, "~", orig, md, d⟩ v =
        constraintTilde v ⟨msg, ⟨0, 0, 0⟩, "~", orig, md, d⟩ from rfl]
    simp [constraintTilde, lessThan_zero]
  · simp only [expandCaret, satisfies, List.contains_nil, Bool.not_false, Bool.and_true,
      Bool.and_eq_true, decide_eq_true_eq, if_true]
    cases w; cases v
    simp [vle, vlt, Version.mk.injEq]
    try omega
  · rw [show expandTilde w true = expandCaret w from rfl]
    simp only [expandCaret, satisfies, List.contains_nil, Bool.not_false, Bool.and_true,
      Bool.and_eq_true, decide_eq_true_eq, if_true]
    cases w; cases v
    simp [vle, vlt, Version.mk.injEq]
    try omega
  · simp only [expandTilde, satisfies, List.contains_nil, Bool.not_false, Bool.and_true,
      Bool.and_eq_true, decide_eq_true_eq, if_true, Bool.true_eq_false, if_false]
    cases w; cases v
    simp [vle, vlt, Version.mk.injEq]
    try omega

/-- Witness for C2 amended at the anchor 1.2.3 of the spec example: ~1.2.3
accepts 1.2.9 via the interval [1.2.3, 1.3.0). -/
theorem C2_amended_witness :
    ccheck ⟨"", ⟨1,2,3⟩, "~", "", false, false⟩ ⟨1,2,9⟩ = true ↔
      (vle ⟨1,2,3⟩ ⟨1,2,9⟩ ∧ vlt ⟨1,2,9⟩ ⟨1,3,0⟩) :=
  ((C2_amended ⟨1,2,3⟩ ⟨1,2,9⟩ false false "" "").2.1 (by decide)).2

/-- Claim C3: a != clause with no wildcards is satisfied by every version
except those equal to the anchor; a != clause with a wildcard is satisfied
exactly by versions strictly below the (zero-filled) anchor or at/above
bumped(anchor), where bumped increments major when the minor is wildcard
and increments minor when only the patch is wildcard, in both pipelines;
in particular !=1.2.x rejects exactly [1.2.0, 1.3.0), accepting 1.1.9 and
1.3.0 while rejecting 1.2.5. -/
theorem C3_neq_semantics (w v : Version) (M m : Nat) (wp : Bool) (msg orig : String) :
    (ccheck ⟨msg, w, "!=", orig, false, false⟩ v = true ↔ v ≠ w) ∧
    (ccheck ⟨msg, ⟨M, 0, 0⟩, "!=", orig, true, true⟩ v = true ↔
      (vlt v ⟨M, 0, 0⟩ ∨ vle ⟨M + 1, 0, 0⟩ v)) ∧
    (ccheck ⟨msg, ⟨M, m, 0⟩, "!=", orig, false, true⟩ v = true ↔
      (vlt v ⟨M, m, 0⟩ ∨ vle ⟨M, m + 1, 0⟩ v)) ∧
    (satisfies (expandNeq w false false) v = true ↔ v ≠ w) ∧
    (satisfies (expandNeq w true wp) v = true ↔
      (vlt v w ∨ vle ⟨w.major + 1, w.minor, w.patch⟩ v)) ∧
    (satisfies (expandNeq w false true) v = true ↔
      (vlt v w ∨ vle ⟨w.major, w.minor + 1, w.patch⟩ v)) ∧
    ((NewConstraint "!=1.2.x").map (fun cs => Check cs v) =
      Except.ok (decide (vlt v ⟨1, 2, 0⟩ ∨ vle ⟨1, 3, 0⟩ v))) ∧
    ((NewConstraint "!=1.2.x").map (fun cs => Check cs ⟨1,1,9⟩) = Except.ok true) ∧
    ((NewConstraint "!=1.2.x").map (fun cs => Check cs ⟨1,3,0⟩) = Except.ok true) ∧
    ((NewConstraint "!=1.2.x").map (fun cs => Check cs ⟨1,2,5⟩) = Except.ok false) := by
  refine ⟨?_, ?_, ?_, ?_, ?_, ?_, ?_, rfl, rfl, rfl⟩
  · rw [show ccheck ⟨msg, w, "!=", orig, false, false⟩ v =
        constraintNotEqual v ⟨msg, w, "!=", orig, false, false⟩ from rfl,
      notEqual_clean_iff _ _ rfl]
  · rw [show ccheck ⟨msg, ⟨M, 0, 0⟩, "!=", orig, true, true⟩ v =
        constraintNotEqual v ⟨msg, ⟨M, 0, 0⟩, "!=", orig, true, true⟩ from rfl,
      notEqual_dirty_iff _ _ rfl]
    cases v
    simp [vlt, vle, Version.mk.injEq]
    try omega
  · rw [show ccheck ⟨msg, ⟨M, m, 0⟩, "!=", orig, false, true⟩ v =
        constraintNotEqual v ⟨msg, ⟨M, m, 0⟩, "!=", orig, false, true⟩ from rfl,
      notEqual_dirty_iff _ _ rfl]
    cases v
    simp [vlt, vle, Version.mk.injEq]
    try omega
  · simp only [expandNeq, Bool.or_self, Bool.not_false, if_true, satisfies]
    simp [List.contains_cons, beq_iff_eq]
  · rw [show expandNeq w true wp = Union [RAC.rangeC Option.none false (some w) false [],
        RAC.rangeC (some ⟨w.major + 1, w.minor, w.patch⟩) true Option.none false []] from by
          simp [expandNeq]]
    rw [satisfies_Union]
    simp only [List.any_cons, List.any_nil, satisfies, List.contains_nil, Bool.not_false,
      Bool.and_true, Bool.or_false, Bool.true_and, Bool.or_eq_true, Bool.and_eq_true,
      decide_eq_true_eq, if_true, Bool.true_eq_false, if_false]
    simp
  · rw [show expandNeq w false true = Union [RAC.rangeC Option.none false (some w) false [],
        RAC.rangeC (some ⟨w.major, w.minor + 1, w.patch⟩) true Option.none false []] from by
          simp [expandNeq]]
    rw [satisfies_Union]
    simp only [List.any_cons, List.any_nil, satisfies, List.contains_nil, Bool.not_false,
      Bool.and_true, Bool.or_false, Bool.true_and, Bool.or_eq_true, Bool.and_eq_true,
      decide_eq_true_eq, if_true, Bool.true_eq_false, if_false]
    simp
  · rw [show NewConstraint "!=1.2.x" =
        Except.ok ⟨[[⟨"%s is equal to %s", ⟨1,2,0⟩, "!=", "1.2.x", false, true⟩]]⟩ from rfl]
    rw [show Except.map (fun cs => Check cs v)
        (Except.ok (⟨[[⟨"%s is equal to %s", ⟨1,2,0⟩, "!=", "1.2.x", false, true⟩]]⟩ : Constraints)) =
        Except.ok (Check ⟨[[⟨"%s is equal to %s", ⟨1,2,0⟩, "!=", "1.2.x", false, true⟩]]⟩ v) from rfl]
    rw [check_single]
    congr 1
    apply bool_eq_decide
    rw [show ccheck ⟨"%s is equal to %s", ⟨1,2,0⟩, "!=", "1.2.x", false, true⟩ v =
        constraintNotEqual v ⟨"%s is equal to %s", ⟨1,2,0⟩, "!=", "1.2.x", false, true⟩ from rfl,
      notEqual_dirty_iff _ _ rfl]
    cases v
    simp [vlt, vle, Version.mk.injEq]
    try omega

theorem zero_vle (v : Version) : vle ⟨0,0,0⟩ v := by
  cases v
  simp [vle, vlt, Version.mk.injEq]
  omega

theorem map_check_ok {s : String} {cs : Constraints} (v : Version)
    (h : NewConstraint s = Except.ok cs) :
    Except.map (fun cs => Check cs v) (NewConstraint s) = Except.ok (Check cs v) := by
  rw [h]
  rfl

/-- Claim C4 counterexample: the claim says a full-wildcard major denotes
Any for every predicate in both pipelines, but the legacy clause !=x
rejects 0.0.0 (the range-algebra pipeline does map it to Any and accepts). -/
theorem C4_cex :
    (NewConstraint "!=x").map (fun cs => Check cs ⟨0,0,0⟩) = Except.ok false ∧
    (NewConstraintNu "!=x").map (fun r => satisfies r ⟨0,0,0⟩) = Except.ok true := by
  exact ⟨rfl, rfl⟩

/-- Claim C4 amended: in the range-algebra pipeline a clause whose major is
a full wildcard (x, X or *) parses to Any for every predicate, and Any
accepts every version.  In the legacy pipeline the full-wildcard clause is
equivalent to Any only for the predicates "", =, ~, ~>, >= and =>; for ^
it accepts exactly the versions of major 0, for > everything above 0.0.0,
for < and <= exactly the versions 0.0.*, and for != everything outside
0.0.*.  A fully omitted pattern is not part of the grammar: it fails
construction in both pipelines rather than denoting Any. -/
theorem C4_amended (v : Version) :
    (NewConstraintNu "x" = Except.ok RAC.anyC) ∧
    (NewConstraintNu "=x" = Except.ok RAC.anyC) ∧
    (NewConstraintNu "!=x" = Except.ok RAC.anyC) ∧
    (NewConstraintNu ">x" = Except.ok RAC.anyC) ∧
    (NewConstraintNu "<x" = Except.ok RAC.anyC) ∧
    (NewConstraintNu ">=x" = Except.ok RAC.anyC) ∧
    (NewConstraintNu "=>x" = Except.ok RAC.anyC) ∧
    (NewConstraintNu "<=x" = Except.ok RAC.anyC) ∧
    (NewConstraintNu "=<x" = Except.ok RAC.anyC) ∧
    (NewConstraintNu "~x" = Except.ok RAC.anyC) ∧
    (NewConstraintNu "~>x" = Except.ok RAC.anyC) ∧
    (NewConstraintNu "^x" = Except.ok RAC.anyC) ∧
    (NewConstraintNu "=X" = Except.ok RAC.anyC) ∧
    (NewConstraintNu "=*" = Except.ok RAC.anyC) ∧
    (satisfies RAC.anyC v = true) ∧
    ((NewConstraint "x").map (fun cs => Check cs v) = Except.ok true) ∧
    ((NewConstraint "=x").map (fun cs => Check cs v) = Except.ok true) ∧
    ((NewConstraint "~x").map (fun cs => Check cs v) = Except.ok true) ∧
    ((NewConstraint "~>x").map (fun cs => Check cs v) = Except.ok true) ∧
    ((NewConstraint ">=x").map (fun cs => Check cs v) = Except.ok true) ∧
    ((NewConstraint "=>x").map (fun cs => Check cs v) = Except.ok true) ∧
    ((NewConstraint "^x").map (fun cs => Check cs v) =
      Except.ok (decide (v.major = 0))) ∧
    ((NewConstraint ">x").map (fun cs => Check cs v) =
      Except.ok (decide (vlt ⟨0,0,0⟩ v))) ∧
    ((NewConstraint "<x").map (fun cs => Check cs v) =
      Except.ok (decide (v.major = 0 ∧ v.minor = 0))) ∧
    ((NewConstraint "<=x").map (fun cs => Check cs v) =
      Except.ok (decide (v.major = 0 ∧ v.minor = 0))) ∧
    ((NewConstraint "!=x").map (fun cs => Check cs v) =
      Except.ok (decide (¬(v.major = 0 ∧ v.minor = 0)))) ∧
    (NewConstraint "=" = Except.error "improper constraint: =") ∧
    (NewConstraintNu "=" = Except.error "Malformed constraint: =") := by
  refine ⟨rfl, rfl, rfl, rfl, rfl, rfl, rfl, rfl, rfl, rfl, rfl, rfl, rfl, rfl, rfl,
    ?_, ?_, ?_, ?_, ?_, ?_, ?_, ?_, ?_, ?_, ?_, rfl, rfl⟩
  · rw [map_check_ok v (show NewConstraint "x" =
      Except.ok ⟨[[⟨constraintMsg "", ⟨0,0,0⟩, "", "x", false, true⟩]]⟩ from rfl), check_single]
    congr 1
    simp [ccheck, constraintTildeOrEqual, constraintTilde, lessThan_zero]
  · rw [map_check_ok v (show NewConstraint "=x" =
      Except.ok ⟨[[⟨constraintMsg "=", ⟨0,0,0⟩, "=", "x", false, true⟩]]⟩ from rfl), check_single]
    congr 1
    simp [ccheck, constraintTildeOrEqual, constraintTilde, lessThan_zero]
  · rw [map_check_ok v (show NewConstraint "~x" =
      Except.ok ⟨[[⟨constraintMsg "~", ⟨0,0,0⟩, "~", "x", false, true⟩]]⟩ from rfl), check_single]
    congr 1
    simp [ccheck, constraintTilde, lessThan_zero]
  · rw [map_check_ok v (show NewConstraint "~>x" =
      Except.ok ⟨[[⟨constraintMsg "~>", ⟨0,0,0⟩, "~>", "x", false, true⟩]]⟩ from rfl), check_single]
    congr 1
    simp [ccheck, constraintTilde, lessThan_zero]
  · rw [map_check_ok v (show NewConstraint ">=x" =
      Except.ok ⟨[[⟨constraintMsg ">=", ⟨0,0,0⟩, ">=", "x", false, true⟩]]⟩ from rfl), check_single]
    congr 1
    simp [ccheck, constraintGreaterThanEqual, ge_iff_le, compare_nonneg_iff, zero_vle v]
  · rw [map_check_ok v (show NewConstraint "=>x" =
      Except.ok ⟨[[⟨constraintMsg "=>", ⟨0,0,0⟩, "=>", "x", false, true⟩]]⟩ from rfl), check_single]
    congr 1
    simp [ccheck, constraintGreaterThanEqual, ge_iff_le, compare_nonneg_iff, zero_vle v]
  · rw [map_check_ok v (show NewConstraint "^x" =
      Except.ok ⟨[[⟨constraintMsg "^", ⟨0,0,0⟩, "^", "x", false, true⟩]]⟩ from rfl), check_single]
    congr 1
    apply bool_eq_decide
    rw [show ccheck ⟨constraintMsg "^", ⟨0,0,0⟩, "^", "x", false, true⟩ v =
        constraintCaret v ⟨constraintMsg "^", ⟨0,0,0⟩, "^", "x", false, true⟩ from rfl, caret_iff]
    simp [zero_vle v]
  · rw [map_check_ok v (show NewConstraint ">x" =
      Except.ok ⟨[[⟨constraintMsg ">", ⟨0,0,0⟩, ">", "x", false, true⟩]]⟩ from rfl), check_single]
    congr 1
    apply bool_eq_decide
    rw [show ccheck ⟨constraintMsg ">", ⟨0,0,0⟩, ">", "x", false, true⟩ v =
        constraintGreaterThan v ⟨constraintMsg ">", ⟨0,0,0⟩, ">", "x", false, true⟩ from rfl]
    unfold constraintGreaterThan
    rw [decide_eq_true_iff]
    exact compare_eq_one_iff v ⟨0,0,0⟩
  · rw [map_check_ok v (show NewConstraint "<x" =
      Except.ok ⟨[[⟨constraintMsg "<", ⟨0,0,0⟩, "<", "x", false, true⟩]]⟩ from rfl), check_single]
    congr 1
    apply bool_eq_decide
    rw [show ccheck ⟨constraintMsg "<", ⟨0,0,0⟩, "<", "x", false, true⟩ v =
        constraintLessThan v ⟨constraintMsg "<", ⟨0,0,0⟩, "<", "x", false, true⟩ from rfl]
    unfold constraintLessThan
    split_ifs <;> simp_all <;> omega
  · rw [map_check_ok v (show NewConstraint "<=x" =
      Except.ok ⟨[[⟨constraintMsg "<=", ⟨0,0,0⟩, "<=", "x", false, true⟩]]⟩ from rfl), check_single]
    congr 1
    apply bool_eq_decide
    rw [show ccheck ⟨constraintMsg "<=", ⟨0,0,0⟩, "<=", "x", false, true⟩ v =
        constraintLessThanEqual v ⟨constraintMsg "<=", ⟨0,0,0⟩, "<=", "x", false, true⟩ from rfl]
    unfold constraintLessThanEqual
    split_ifs <;> simp_all <;> omega
  · rw [map_check_ok v (show NewConstraint "!=x" =
      Except.ok ⟨[[⟨constraintMsg "!=", ⟨0,0,0⟩, "!=", "x", false, true⟩]]⟩ from rfl), check_single]
    congr 1
    apply bool_eq_decide
    rw [show ccheck ⟨constraintMsg "!=", ⟨0,0,0⟩, "!=", "x", false, true⟩ v =
        constraintNotEqual v ⟨constraintMsg "!=", ⟨0,0,0⟩, "!=", "x", false, true⟩ from rfl,
      notEqual_dirty_iff _ _ rfl]
    cases v
    simp [Version.mk.injEq]
    omega

/-- Claim C5 counterexample: omitting the minor component is not the same
as writing a wildcard there: =1 zero-fills to the exact version 1.0.0 (no
dirtiness recorded, isX of the empty string being false), so =1 rejects
1.5.0 while =1.x accepts it. -/
theorem C5_cex :
    (NewConstraint "=1").map (fun cs => Check cs ⟨1,5,0⟩) = Except.ok false ∧
    (NewConstraint "=1.x").map (fun cs => Check cs ⟨1,5,0⟩) = Except.ok true := by
  exact ⟨rfl, rfl⟩

/-- Claim C5 amended: for every predicate and all nonempty digit runs, a
clause that omits its minor (respectively patch) component is built, in
both pipelines, to the same constraint as the clause with the omitted
components written as concrete zeros, differing only in the recorded
original text, which ccheck ignores; no dirtiness flags are recorded for
omitted components.  In particular =1 is equivalent to =1.0.0, =1.2 to
=1.2.0 and ~2 to ~2.0.0, and none of them behaves as a wildcard. -/
theorem C5_amended (v : Version) :
    (∀ (p : String) (d : Char) (t : List Char), (d :: t).all Char.isDigit = true →
      (buildLegacy ⟨p, d :: t, d :: t, [], [], []⟩ =
        Except.ok ⟨constraintMsg p, ⟨natOfDigits (d :: t), 0, 0⟩, p,
          String.mk (d :: t), false, false⟩) ∧
      (buildLegacy ⟨p, (d :: t) ++ ".0.0".data, d :: t, ".0".data, ".0".data, []⟩ =
        Except.ok ⟨constraintMsg p, ⟨natOfDigits (d :: t), 0, 0⟩, p,
          String.mk ((d :: t) ++ ".0.0".data), false, false⟩) ∧
      (buildNu ⟨p, d :: t, d :: t, [], [], []⟩ =
        buildNu ⟨p, (d :: t) ++ ".0.0".data, d :: t, ".0".data, ".0".data, []⟩) ∧
      (ccheck ⟨constraintMsg p, ⟨natOfDigits (d :: t), 0, 0⟩, p,
          String.mk (d :: t), false, false⟩ v =
        ccheck ⟨constraintMsg p, ⟨natOfDigits (d :: t), 0, 0⟩, p,
          String.mk ((d :: t) ++ ".0.0".data), false, false⟩ v)) ∧
    (∀ (p : String) (d : Char) (t : List Char) (e : Char) (t2 : List Char),
      (d :: t).all Char.isDigit = true → (e :: t2).all Char.isDigit = true →
      (buildLegacy ⟨p, (d :: t) ++ ('.' :: (e :: t2)), d :: t, '.' :: (e :: t2), [], []⟩ =
        Except.ok ⟨constraintMsg p, ⟨natOfDigits (d :: t), natOfDigits (e :: t2), 0⟩, p,
          String.mk ((d :: t) ++ ('.' :: (e :: t2))), false, false⟩) ∧
      (buildLegacy ⟨p, (d :: t) ++ ('.' :: ((e :: t2) ++ ".0".data)), d :: t,
          '.' :: (e :: t2), ".0".data, []⟩ =
        Except.ok ⟨constraintMsg p, ⟨natOfDigits (d :: t), natOfDigits (e :: t2), 0⟩, p,
          String.mk ((d :: t) ++ ('.' :: ((e :: t2) ++ ".0".data))), false, false⟩) ∧
      (buildNu ⟨p, (d :: t) ++ ('.' :: (e :: t2)), d :: t, '.' :: (e :: t2), [], []⟩ =
        buildNu ⟨p, (d :: t) ++ ('.' :: ((e :: t2) ++ ".0".data)), d :: t,
          '.' :: (e :: t2), ".0".data, []⟩) ∧
      (ccheck ⟨constraintMsg p, ⟨natOfDigits (d :: t), natOfDigits (e :: t2), 0⟩, p,
          String.mk ((d :: t) ++ ('.' :: (e :: t2))), false, false⟩ v =
        ccheck ⟨constraintMsg p, ⟨natOfDigits (d :: t), natOfDigits (e :: t2), 0⟩, p,
          String.mk ((d :: t) ++ ('.' :: ((e :: t2) ++ ".0".data))), false, false⟩ v)) ∧
    ((NewConstraint "=1").map (fun cs => Check cs v) =
      (NewConstraint "=1.0.0").map (fun cs => Check cs v)) ∧
    ((NewConstraint "~2").map (fun cs => Check cs v) =
      (NewConstraint "~2.0.0").map (fun cs => Check cs v)) ∧
    ((NewConstraint "=1.2").map (fun cs => Check cs v) =
      (NewConstraint "=1.2.0").map (fun cs => Check cs v)) ∧
    (parseConstraint "=1" = Except.ok ⟨constraintMsg "=", ⟨1,0,0⟩, "=", "1", false, false⟩) ∧
    (parseConstraintNu "=1" = Except.ok (RAC.exact ⟨1,0,0⟩)) ∧
    (parseConstraint "=1.2" = Except.ok ⟨constraintMsg "=", ⟨1,2,0⟩, "=", "1.2", false, false⟩) ∧
    (parseConstraintNu "=1.2" = Except.ok (RAC.exact ⟨1,2,0⟩)) ∧
    (parseConstraint "~2" = Except.ok ⟨constraintMsg "~", ⟨2,0,0⟩, "~", "2", false, false⟩) ∧
    (parseConstraintNu "~2" =
      Except.ok (RAC.rangeC (some ⟨2,0,0⟩) true (some ⟨2,1,0⟩) false [])) := by
  refine ⟨?_, ?_, ?_, ?_, ?_, rfl, rfl, rfl, rfl, rfl, rfl⟩
  · intro p d t hall
    exact ⟨(omitted_minor_legacy p d t hall).1, (omitted_minor_legacy p d t hall).2,
      omitted_minor_nu p d t hall, ccheck_drops_msg_orig _ _ _ _ _ _ _ _ _⟩
  · intro p d t e t2 hall hall2
    exact ⟨(omitted_patch_legacy p d t e t2 hall hall2).1,
      (omitted_patch_legacy p d t e t2 hall hall2).2,
      omitted_patch_nu p d t e t2 hall hall2, ccheck_drops_msg_orig _ _ _ _ _ _ _ _ _⟩
  · rw [map_check_ok v (show NewConstraint "=1" = Except.ok
        ⟨[[⟨constraintMsg "=", ⟨1,0,0⟩, "=", "1", false, false⟩]]⟩ from rfl),
      map_check_ok v (show NewConstraint "=1.0.0" = Except.ok
        ⟨[[⟨constraintMsg "=", ⟨1,0,0⟩, "=", "1.0.0", false, false⟩]]⟩ from rfl),
      check_single, check_single]
    rfl
  · rw [map_check_ok v (show NewConstraint "~2" = Except.ok
        ⟨[[⟨constraintMsg "~", ⟨2,0,0⟩, "~", "2", false, false⟩]]⟩ from rfl),
      map_check_ok v (show NewConstraint "~2.0.0" = Except.ok
        ⟨[[⟨constraintMsg "~", ⟨2,0,0⟩, "~", "2.0.0", false, false⟩]]⟩ from rfl),
      check_single, check_single]
    rfl
  · rw [map_check_ok v (show NewConstraint "=1.2" = Except.ok
        ⟨[[⟨constraintMsg "=", ⟨1,2,0⟩, "=", "1.2", false, false⟩]]⟩ from rfl),
      map_check_ok v (show NewConstraint "=1.2.0" = Except.ok
        ⟨[[⟨constraintMsg "=", ⟨1,2,0⟩, "=", "1.2.0", false, false⟩]]⟩ from rfl),
      check_single, check_single]
    rfl

/-- Witness for C5 amended at predicate = and the single digit 1: the
minor-omitted clause builds to the exact anchor 1.0.0 with no dirtiness. -/
theorem C5_amended_witness :
    buildLegacy ⟨"=", ['1'], ['1'], [], [], []⟩ =
      Except.ok ⟨constraintMsg "=", ⟨natOfDigits ['1'], 0, 0⟩, "=",
        String.mk ['1'], false, false⟩ :=
  ((C5_amended ⟨1,5,0⟩).1 "=" '1' [] (by decide)).1

/-- Claim C6 counterexample: not every hyphen-range sub-expression is
rewritten.  In "1.0.0 - 2.0.0 - 3.0.0" the two hyphen ranges overlap; only
the leftmost is rewritten, the output still contains the hyphen-range text
"2.0.0- 3.0.0" (scanRanges finds a match in it), and the leftover reaches
the clause parser, which fails construction. -/
theorem C6_cex :
    rewriteRange "1.0.0 - 2.0.0 - 3.0.0" = ">= 1.0.0, <= 2.0.0- 3.0.0" ∧
    scanRanges (">= 1.0.0, <= 2.0.0- 3.0.0".data.length + 1)
      ">= 1.0.0, <= 2.0.0- 3.0.0".data ≠ [] ∧
    NewConstraint "1.0.0 - 2.0.0 - 3.0.0" =
      Except.error "improper constraint:  <= 2.0.0- 3.0.0" := by
  refine ⟨rfl, by decide, rfl⟩

/-- Claim C6 amended: each leftmost non-overlapping hyphen-range occurrence
is rewritten to ">= A, <= B" before any splitting (overlapping occurrences
beyond the leftmost are left in place and make construction fail);
consequently a Constraints built from "1.0.0 - 2.0.0" is satisfied exactly
by [1.0.0, 2.0.0], accepting 1.5.0 and 2.0.0 (inclusive upper bound) and
rejecting 2.0.1. -/
theorem C6_amended (v : Version) :
    (rewriteRange "1.0.0 - 2.0.0" = ">= 1.0.0, <= 2.0.0") ∧
    ((NewConstraint "1.0.0 - 2.0.0").map (fun cs => Check cs v) =
      Except.ok (decide (vle ⟨1,0,0⟩ v ∧ vle v ⟨2,0,0⟩))) ∧
    ((NewConstraint "1.0.0 - 2.0.0").map (fun cs => Check cs ⟨1,5,0⟩) = Except.ok true) ∧
    ((NewConstraint "1.0.0 - 2.0.0").map (fun cs => Check cs ⟨2,0,0⟩) = Except.ok true) ∧
    ((NewConstraint "1.0.0 - 2.0.0").map (fun cs => Check cs ⟨2,0,1⟩) = Except.ok false) := by
  refine ⟨rfl, ?_, rfl, rfl, rfl⟩
  rw [map_check_ok v (show NewConstraint "1.0.0 - 2.0.0" = Except.ok
    ⟨[[⟨constraintMsg ">=", ⟨1,0,0⟩, ">=", "1.0.0", false, false⟩,
       ⟨constraintMsg "<=", ⟨2,0,0⟩, "<=", "2.0.0", false, false⟩]]⟩ from rfl), check_pair]
  congr 1
  apply bool_eq_decide
  rw [Bool.and_eq_true]
  simp [ccheck, constraintGreaterThanEqual, constraintLessThanEqual, ge_iff_le,
    compare_nonneg_iff, compare_nonpos_iff]

theorem mapExcept_ok_mem {α β : Type} (f : α → Except String β) :
    ∀ (l : List α) (r : List β), mapExcept f l = Except.ok r →
      ∀ a ∈ l, ∃ b, f a = Except.ok b := by
  intro l
  induction l with
  | nil =>
    intro r _ a ha
    exact absurd ha (List.not_mem_nil a)
  | cons x xs ih =>
    intro r h a ha
    rw [mapExcept] at h
    cases hf : f x with
    | error e =>
      rw [hf] at h
      exact Except.noConfusion h
    | ok b =>
      rw [hf] at h
      cases hr : mapExcept f xs with
      | error e =>
        rw [hr] at h
        exact Except.noConfusion h
      | ok bs =>
        rcases List.mem_cons.mp ha with h1 | h1
        · exact ⟨b, h1 ▸ hf⟩
        · exact ih bs hr a h1

/-- Claim C7: a clause that does not match the clause grammar (such as
">> 1.0.0") fails construction in both pipelines with a malformed-constraint
error carrying the offending clause text, and no Constraints value is
produced: whenever construction succeeds, every clause of every group
parsed successfully.  The embedding is total, so no panic is possible. -/
theorem C7_malformed_fatal :
    (NewConstraint ">> 1.0.0" = Except.error "improper constraint: >> 1.0.0") ∧
    (NewConstraintNu ">> 1.0.0" = Except.error "Malformed constraint: >> 1.0.0") ∧
    (matchClause ">> 1.0.0" = Option.none) ∧
    (∀ s cs, NewConstraint s = Except.ok cs →
      ∀ g ∈ clauseGroupsOf s, ∀ cl ∈ g, ∃ c, parseConstraint cl = Except.ok c) := by
  refine ⟨rfl, rfl, rfl, ?_⟩
  intro s cs h g hg cl hcl
  rw [NewConstraint] at h
  cases hm : mapExcept (fun g => mapExcept parseConstraint g) (clauseGroupsOf s) with
  | error e =>
    rw [hm] at h
    exact Except.noConfusion h
  | ok groups =>
    obtain ⟨gc, hgc⟩ := mapExcept_ok_mem _ (clauseGroupsOf s) groups hm g hg
    exact mapExcept_ok_mem parseConstraint g gc hgc cl hcl

/-- Witness for C7 at the well-formed input "1.0.0". -/
theorem C7_malformed_fatal_witness :
    ∃ c, parseConstraint "1.0.0" = Except.ok c :=
  C7_malformed_fatal.2.2.2 "1.0.0"
    ⟨[[⟨constraintMsg "", ⟨1,0,0⟩, "", "1.0.0", false, false⟩]]⟩ rfl
    ["1.0.0"] (by simp [clauseGroupsOf, rewriteRange, scanRanges, matchRangeAt, splitSub, splitSubAux])
    "1.0.0" (List.mem_singleton.mpr rfl)

/-- The reason list claim C8 describes. -/
def allFailMsgs (cs : Constraints) (v : Version) : List String :=
  cs.constraints.flatMap (fun g =>
    (g.filter (fun c => !(ccheck c v))).map
      (fun c => fmtMsg (checkUpd c v).msg v c.orig))

/-- Claim C8: Validate agrees with Check on the boolean, returns (true, [])
exactly when some group is fully satisfied, and otherwise returns false
with one templated message per failing clause of every group (Validate
checks every clause of every group, not stopping at the first failure);
the embedding is total, so Validate never fails. -/
theorem C8_validate_agrees (cs : Constraints) (v : Version) :
    ((Validate cs v).1 = Check cs v) ∧
    (Check cs v = true → Validate cs v = (true, [])) ∧
    (Check cs v = false → Validate cs v = (false, allFailMsgs cs v)) := by
  refine ⟨?_, ?_, ?_⟩
  · rw [show (Validate cs v).1 = (validateRunGroups v [] cs.constraints).1.1 from rfl,
      validateRunGroups_fst, Check_eq_anyAll]
  · intro h
    rw [Check_eq_anyAll] at h
    rw [show Validate cs v = (validateRunGroups v [] cs.constraints).1 from rfl,
      validateRunGroups_true v cs.constraints h []]
  · intro h
    rw [Check_eq_anyAll] at h
    have h1 := validateRunGroups_fst v cs.constraints []
    rw [h] at h1
    have h2 := validateRunGroups_msgs v cs.constraints h []
    rw [show Validate cs v = (validateRunGroups v [] cs.constraints).1 from rfl,
      show (validateRunGroups v [] cs.constraints).1 =
        ((validateRunGroups v [] cs.constraints).1.1,
         (validateRunGroups v [] cs.constraints).1.2) from rfl, h1, h2]
    simp [allFailMsgs]

/-- Witness for C8 on the Constraints parsed from "1.x" at version 2.0.0. -/
theorem C8_validate_agrees_witness :
    Validate ⟨[[⟨constraintMsg "", ⟨1,0,0⟩, "", "1.x", true, true⟩]]⟩ ⟨2,0,0⟩ =
      (false, allFailMsgs ⟨[[⟨constraintMsg "", ⟨1,0,0⟩, "", "1.x", true, true⟩]]⟩ ⟨2,0,0⟩) :=
  (C8_validate_agrees ⟨[[⟨constraintMsg "", ⟨1,0,0⟩, "", "1.x", true, true⟩]]⟩ ⟨2,0,0⟩).2.2 rfl

/-- Equality of every clause field except msg. -/
def sameExceptMsg (a b : constraint) : Prop :=
  b.con = a.con ∧ b.predicate = a.predicate ∧ b.orig = a.orig ∧
  b.minorDirty = a.minorDirty ∧ b.dirty = a.dirty

theorem sameExceptMsg_checkUpd (c : constraint) (v : Version) :
    sameExceptMsg c (checkUpd c v) := by
  unfold checkUpd
  split_ifs <;> exact ⟨rfl, rfl, rfl, rfl, rfl⟩

theorem sameExceptMsg_list_refl : ∀ l : List constraint, List.Forall₂ sameExceptMsg l l
  | [] => List.Forall₂.nil
  | _ :: rest => List.Forall₂.cons ⟨rfl, rfl, rfl, rfl, rfl⟩ (sameExceptMsg_list_refl rest)

theorem sameExceptMsg_groups_refl :
    ∀ gs : List (List constraint), List.Forall₂ (List.Forall₂ sameExceptMsg) gs gs
  | [] => List.Forall₂.nil
  | g :: rest => List.Forall₂.cons (sameExceptMsg_list_refl g) (sameExceptMsg_groups_refl rest)

theorem groupCheckRun_frame (v : Version) :
    ∀ g, List.Forall₂ sameExceptMsg g (groupCheckRun v g).2
  | [] => List.Forall₂.nil
  | c :: rest => by
    rw [groupCheckRun]
    cases h : ccheck c v
    · simp only [h, Bool.false_eq_true, if_false]
      exact List.Forall₂.cons (sameExceptMsg_checkUpd c v) (sameExceptMsg_list_refl rest)
    · simp only [h, if_true]
      exact List.Forall₂.cons (sameExceptMsg_checkUpd c v) (groupCheckRun_frame v rest)

theorem checkRunGroups_frame (v : Version) :
    ∀ gs, List.Forall₂ (List.Forall₂ sameExceptMsg) gs (checkRunGroups v gs).2
  | [] => List.Forall₂.nil
  | g :: rest => by
    rw [checkRunGroups]
    cases h : (groupCheckRun v g).1
    · simp only [h, Bool.false_eq_true, if_false]
      exact List.Forall₂.cons (groupCheckRun_frame v g) (checkRunGroups_frame v rest)
    · simp only [h, if_true]
      exact List.Forall₂.cons (groupCheckRun_frame v g) (sameExceptMsg_groups_refl rest)

theorem groupValidateRun_frame (v : Version) :
    ∀ g, List.Forall₂ sameExceptMsg g (groupValidateRun v g).2
  | [] => List.Forall₂.nil
  | c :: rest => by
    rw [groupValidateRun]
    cases h : ccheck c v
    · simp only [h, Bool.false_eq_true, if_false]
      exact List.Forall₂.cons (sameExceptMsg_checkUpd c v) (groupValidateRun_frame v rest)
    · simp only [h, if_true]
      exact List.Forall₂.cons (sameExceptMsg_checkUpd c v) (groupValidateRun_frame v rest)

theorem validateRunGroups_frame (v : Version) :
    ∀ gs e, List.Forall₂ (List.Forall₂ sameExceptMsg) gs (validateRunGroups v e gs).2
  | [], _ => List.Forall₂.nil
  | g :: rest, e => by
    rw [validateRunGroups]
    cases h : (groupValidateRun v g).1.1
    · simp only [h, Bool.false_eq_true, if_false]
      exact List.Forall₂.cons (groupValidateRun_frame v g)
        (validateRunGroups_frame v rest (e ++ (groupValidateRun v g).1.2))
    · simp only [h, if_true]
      exact List.Forall₂.cons (groupValidateRun_frame v g) (sameExceptMsg_groups_refl rest)

/-- Claim C9 counterexample: evaluation is not free of field writes.
Checking the dirty equality clause parsed from "1.x" rewrites its msg field
from the equality message to the tilde message (constraintTildeOrEqual
assigns c.msg when c.dirty), so the Constraints value observed after
Check differs from the one before. -/
theorem C9_mutation_cex :
    (NewConstraint "1.x").map
      (fun cs => decide ((CheckRun cs ⟨2,0,0⟩).2 = cs)) = Except.ok false ∧
    (NewConstraint "1.x").map (fun cs => (CheckRun cs ⟨2,0,0⟩).2) = Except.ok
      ⟨[[⟨constraintMsg "~", ⟨1,0,0⟩, "", "1.x", true, true⟩]]⟩ ∧
    (NewConstraint "1.x") = Except.ok
      ⟨[[⟨constraintMsg "", ⟨1,0,0⟩, "", "1.x", true, true⟩]]⟩ := by
  exact ⟨rfl, rfl, rfl⟩

/-- Claim C9 amended: evaluation leaves every clause field except msg
unchanged (function is constraintOps[predicate] and predicate never
changes); a clause that is not a dirty ""/"=" clause is left entirely
unchanged, the msg rewrite is idempotent, and both Check and Validate
leave every clause of every group unchanged except possibly msg. -/
theorem C9_amended (c : constraint) (v v2 : Version) (cs : Constraints) :
    ((checkUpd c v).con = c.con ∧ (checkUpd c v).predicate = c.predicate ∧
     (checkUpd c v).orig = c.orig ∧ (checkUpd c v).minorDirty = c.minorDirty ∧
     (checkUpd c v).dirty = c.dirty) ∧
    (¬((c.predicate = "" ∨ c.predicate = "=") ∧ c.dirty = true) → checkUpd c v = c) ∧
    (checkUpd (checkUpd c v) v2 = checkUpd c v) ∧
    List.Forall₂ (List.Forall₂ sameExceptMsg) cs.constraints (CheckRun cs v).2.constraints ∧
    List.Forall₂ (List.Forall₂ sameExceptMsg) cs.constraints (ValidateRun cs v).2.constraints := by
  refine ⟨?_, ?_, ?_, ?_, ?_⟩
  · unfold checkUpd
    split_ifs <;> exact ⟨rfl, rfl, rfl, rfl, rfl⟩
  · intro h
    unfold checkUpd
    rw [if_neg h]
  · unfold checkUpd
    split_ifs <;> simp_all
  · exact checkRunGroups_frame v cs.constraints
  · exact validateRunGroups_frame v cs.constraints []

/-- Witness for C9 amended: a clean > clause is left unchanged. -/
theorem C9_amended_witness :
    checkUpd ⟨constraintMsg ">", ⟨1,0,0⟩, ">", "1.0.0", false, false⟩ ⟨1,2,3⟩ =
      ⟨constraintMsg ">", ⟨1,0,0⟩, ">", "1.0.0", false, false⟩ :=
  (C9_amended ⟨constraintMsg ">", ⟨1,0,0⟩, ">", "1.0.0", false, false⟩
    ⟨1,2,3⟩ ⟨0,0,0⟩ ⟨[]⟩).2.1 (by decide)

/-! ### Clause-level lemmas for the pipeline comparison -/

theorem satisfies_expandGreater (w : Version) (eq : Bool) (v : Version) :
    satisfies (expandGreater w eq) v =
      (if eq = true then decide (vle w v) else decide (vlt w v)) := by
  cases eq <;> simp [expandGreater, satisfies]

theorem satisfies_expandLess_clean (w : Version) (eq : Bool) (v : Version) :
    satisfies (expandLess w false false eq) v =
      (if eq = true then decide (vle v w) else decide (vlt v w)) := by
  cases eq <;> simp [expandLess, satisfies]

theorem satisfies_expandCaret (w v : Version) :
    satisfies (expandCaret w) v =
      decide (vle w v ∧ vlt v ⟨w.major + 1, 0, 0⟩) := by
  simp [expandCaret, satisfies, Bool.decide_and]

theorem satisfies_expandTilde_false (w v : Version) :
    satisfies (expandTilde w false) v =
      decide (vle w v ∧ vlt v ⟨w.major, w.minor + 1, 0⟩) := by
  simp [expandTilde, satisfies, Bool.decide_and]

theorem satisfies_expandTilde_true (w v : Version) :
    satisfies (expandTilde w true) v =
      decide (vle w v ∧ vlt v ⟨w.major + 1, 0, 0⟩) := by
  rw [show expandTilde w true = expandCaret w from rfl]
  exact satisfies_expandCaret w v

theorem satisfies_expandNeq_clean (w v : Version) :
    satisfies (expandNeq w false false) v = decide (¬(v = w)) := by
  simp only [expandNeq, Bool.or_self, Bool.not_false, if_true, satisfies]
  simp [List.contains_cons, decide_not]

theorem satisfies_expandNeq_wildMinor (w v : Version) (wp : Bool) :
    satisfies (expandNeq w true wp) v =
      decide (vlt v w ∨ vle ⟨w.major + 1, w.minor, w.patch⟩ v) := by
  rw [show expandNeq w true wp = Union [RAC.rangeC Option.none false (some w) false [],
      RAC.rangeC (some ⟨w.major + 1, w.minor, w.patch⟩) true Option.none false []] from by
        simp [expandNeq]]
  rw [satisfies_Union]
  simp [satisfies, Bool.decide_or]

theorem satisfies_expandNeq_wildPatch (w v : Version) :
    satisfies (expandNeq w false true) v =
      decide (vlt v w ∨ vle ⟨w.major, w.minor + 1, w.patch⟩ v) := by
  rw [show expandNeq w false true = Union [RAC.rangeC Option.none false (some w) false [],
      RAC.rangeC (some ⟨w.major, w.minor + 1, w.patch⟩) true Option.none false []] from by
        simp [expandNeq]]
  rw [satisfies_Union]
  simp [satisfies, Bool.decide_or]

theorem ccheck_toe {c : constraint} (h : c.predicate = "" ∨ c.predicate = "=")
    (v : Version) : ccheck c v = constraintTildeOrEqual v c := by
  obtain ⟨msg, con, pred, orig, md, d⟩ := c
  rcases h with h | h
  · have h2 : pred = "" := h
    subst h2
    rfl
  · have h2 : pred = "=" := h
    subst h2
    rfl

theorem ccheck_neq {c : constraint} (h : c.predicate = "!=") (v : Version) :
    ccheck c v = constraintNotEqual v c := by
  obtain ⟨msg, con, pred, orig, md, d⟩ := c
  have h2 : pred = "!=" := h
  subst h2
  rfl

theorem ccheck_gt {c : constraint} (h : c.predicate = ">") (v : Version) :
    ccheck c v = constraintGreaterThan v c := by
  obtain ⟨msg, con, pred, orig, md, d⟩ := c
  have h2 : pred = ">" := h
  subst h2
  rfl

theorem ccheck_lt {c : constraint} (h : c.predicate = "<") (v : Version) :
    ccheck c v = constraintLessThan v c := by
  obtain ⟨msg, con, pred, orig, md, d⟩ := c
  have h2 : pred = "<" := h
  subst h2
  rfl

theorem ccheck_gte {c : constraint} (h : c.predicate = ">=" ∨ c.predicate = "=>")
    (v : Version) : ccheck c v = constraintGreaterThanEqual v c := by
  obtain ⟨msg, con, pred, orig, md, d⟩ := c
  rcases h with h | h
  · have h2 : pred = ">=" := h
    subst h2
    rfl
  · have h2 : pred = "=>" := h
    subst h2
    rfl

theorem ccheck_lte {c : constraint} (h : c.predicate = "<=" ∨ c.predicate = "=<")
    (v : Version) : ccheck c v = constraintLessThanEqual v c := by
  obtain ⟨msg, con, pred, orig, md, d⟩ := c
  rcases h with h | h
  · have h2 : pred = "<=" := h
    subst h2
    rfl
  · have h2 : pred = "=<" := h
    subst h2
    rfl

theorem ccheck_tilde {c : constraint} (h : c.predicate = "~" ∨ c.predicate = "~>")
    (v : Version) : ccheck c v = constraintTilde v c := by
  obtain ⟨msg, con, pred, orig, md, d⟩ := c
  rcases h with h | h
  · have h2 : pred = "~" := h
    subst h2
    rfl
  · have h2 : pred = "~>" := h
    subst h2
    rfl

theorem ccheck_caret {c : constraint} (h : c.predicate = "^") (v : Version) :
    ccheck c v = constraintCaret v c := by
  obtain ⟨msg, con, pred, orig, md, d⟩ := c
  have h2 : pred = "^" := h
  subst h2
  rfl

theorem toe_dirty {c : constraint} (h : c.dirty = true) (v : Version) :
    constraintTildeOrEqual v c = constraintTilde v c := by
  unfold constraintTildeOrEqual
  rw [h]
  rw [if_pos rfl]

theorem toe_clean {c : constraint} (h : c.dirty = false) (v : Version) :
    constraintTildeOrEqual v c = v.Equal c.con := by
  unfold constraintTildeOrEqual
  rw [h]
  rw [if_neg Bool.false_ne_true]

/-- On safe clause shapes the legacy clause check and the range-algebra
expansion agree for every version: the core case analysis over the
predicate and the wildcard flags. -/
theorem core_agree (m : ClauseParts) (ver : List Char) (md d : Bool)
    (c : constraint) (r : RAC) (v : Version)
    (h1 : buildLegacyCore m ver md d = .ok c)
    (h2 : buildNuCore m ver md d = .ok r)
    (hmd : md = true → d = true)
    (hsh1 : c.minorDirty = true → c.con.minor = 0 ∧ c.con.patch = 0)
    (hsh2 : c.dirty = true ∧ c.minorDirty = false → c.con.patch = 0)
    (hdisj : m.pred = ">" ∨ m.pred = ">=" ∨ m.pred = "=>" ∨ m.pred = "!=" ∨ m.pred = "^" ∨
      ((m.pred = "" ∨ m.pred = "=") ∧
        (c.dirty = true → ¬(c.con.major = 0 ∧ c.con.minor = 0 ∧ c.con.patch = 0))) ∨
      (m.pred = "~" ∧ ¬(c.con.major = 0 ∧ c.con.minor = 0 ∧ c.con.patch = 0)) ∨
      ((m.pred = "<" ∨ m.pred = "<=" ∨ m.pred = "=<") ∧ c.dirty = false)) :
    ccheck c v = satisfies r v := by
  rw [buildLegacyCore] at h1
  rw [buildNuCore] at h2
  cases hv : verOfChars ver with
  | none =>
    rw [hv] at h1
    exact Except.noConfusion h1
  | some w =>
    rw [hv] at h1 h2
    injection h1 with h1
    subst h1
    rcases hdisj with hp | hp | hp | hp | hp | ⟨hp, hz⟩ | ⟨hp, hz⟩ | ⟨hp, hd⟩
    · -- ">"
      rw [hp] at h2 ⊢
      have h2b : Except.ok (expandGreater w false) = Except.ok r := h2
      injection h2b with h2b
      subst h2b
      rw [ccheck_gt rfl, satisfies_expandGreater, if_neg Bool.false_ne_true]
      unfold constraintGreaterThan
      rw [decide_eq_decide]
      exact compare_eq_one_iff v w
    · -- ">="
      rw [hp] at h2 ⊢
      have h2b : Except.ok (expandGreater w true) = Except.ok r := h2
      injection h2b with h2b
      subst h2b
      rw [ccheck_gte (Or.inl rfl), satisfies_expandGreater, if_pos rfl]
      unfold constraintGreaterThanEqual
      rw [decide_eq_decide]
      exact compare_nonneg_iff v w
    · -- "=>"
      rw [hp] at h2 ⊢
      have h2b : Except.ok (expandGreater w true) = Except.ok r := h2
      injection h2b with h2b
      subst h2b
      rw [ccheck_gte (Or.inr rfl), satisfies_expandGreater, if_pos rfl]
      unfold constraintGreaterThanEqual
      rw [decide_eq_decide]
      exact compare_nonneg_iff v w
    · -- "!="
      rw [hp] at h2 ⊢
      have h2b : Except.ok (expandNeq w md d) = Except.ok r := h2
      injection h2b with h2b
      subst h2b
      rw [ccheck_neq rfl]
      cases md with
      | true =>
        have hdv : d = true := hmd rfl
        subst hdv
        obtain ⟨hm0, hp0⟩ : w.minor = 0 ∧ w.patch = 0 := hsh1 rfl
        rw [satisfies_expandNeq_wildMinor]
        apply bool_eq_decide
        rw [notEqual_dirty_iff _ _ rfl]
        cases w; cases v
        simp_all [vlt, vle, Version.mk.injEq]
        try omega
      | false =>
        cases d with
        | true =>
          have hp0 : w.patch = 0 := hsh2 ⟨rfl, rfl⟩
          rw [satisfies_expandNeq_wildPatch]
          apply bool_eq_decide
          rw [notEqual_dirty_iff _ _ rfl]
          cases w; cases v
          simp_all [vlt, vle, Version.mk.injEq]
          try omega
        | false =>
          rw [satisfies_expandNeq_clean]
          apply bool_eq_decide
          rw [notEqual_clean_iff _ _ rfl]
    · -- "^"
      rw [hp] at h2 ⊢
      have h2b : Except.ok (expandCaret w) = Except.ok r := h2
      injection h2b with h2b
      subst h2b
      rw [ccheck_caret rfl, satisfies_expandCaret]
      apply bool_eq_decide
      rw [caret_iff]
      cases w; cases v
      simp [vle, vlt, Version.mk.injEq]
      try omega
    · -- "" or "="
      have hz' : d = true → ¬(w.major = 0 ∧ w.minor = 0 ∧ w.patch = 0) := hz
      rcases hp with hp | hp <;> rw [hp] at h2 ⊢
      · cases d with
        | true =>
          have h2b : Except.ok (expandTilde w md) = Except.ok r := h2
          injection h2b with h2b
          subst h2b
          rw [ccheck_toe (Or.inl rfl), toe_dirty rfl]
          cases md with
          | true =>
            rw [satisfies_expandTilde_true]
            apply bool_eq_decide
            rw [tilde_iff]
            have hzz := hz' rfl
            cases w; cases v
            simp_all [vle, vlt, Version.mk.injEq]
            try omega
          | false =>
            rw [satisfies_expandTilde_false]
            apply bool_eq_decide
            rw [tilde_iff]
            have hzz := hz' rfl
            cases w; cases v
            simp_all [vle, vlt, Version.mk.injEq]
            try omega
        | false =>
          cases md with
          | true => exact absurd (hmd rfl) Bool.false_ne_true
          | false =>
            have h2b : Except.ok (RAC.exact w) = Except.ok r := h2
            injection h2b with h2b
            subst h2b
            rw [ccheck_toe (Or.inl rfl), toe_clean rfl]
            rfl
      · cases d with
        | true =>
          have h2b : Except.ok (expandTilde w md) = Except.ok r := h2
          injection h2b with h2b
          subst h2b
          rw [ccheck_toe (Or.inr rfl), toe_dirty rfl]
          cases md with
          | true =>
            rw [satisfies_expandTilde_true]
            apply bool_eq_decide
            rw [tilde_iff]
            have hzz := hz' rfl
            cases w; cases v
            simp_all [vle, vlt, Version.mk.injEq]
            try omega
          | false =>
            rw [satisfies_expandTilde_false]
            apply bool_eq_decide
            rw [tilde_iff]
            have hzz := hz' rfl
            cases w; cases v
            simp_all [vle, vlt, Version.mk.injEq]
            try omega
        | false =>
          cases md with
          | true => exact absurd (hmd rfl) Bool.false_ne_true
          | false =>
            have h2b : Except.ok (RAC.exact w) = Except.ok r := h2
            injection h2b with h2b
            subst h2b
            rw [ccheck_toe (Or.inr rfl), toe_clean rfl]
            rfl
    · -- "~"
      have hz' : ¬(w.major = 0 ∧ w.minor = 0 ∧ w.patch = 0) := hz
      rw [hp] at h2 ⊢
      have h2b : Except.ok (expandTilde w md) = Except.ok r := h2
      injection h2b with h2b
      subst h2b
      rw [ccheck_tilde (Or.inl rfl)]
      cases md with
      | true =>
        rw [satisfies_expandTilde_true]
        apply bool_eq_decide
        rw [tilde_iff]
        cases w; cases v
        simp_all [vle, vlt, Version.mk.injEq]
        try omega
      | false =>
        rw [satisfies_expandTilde_false]
        apply bool_eq_decide
        rw [tilde_iff]
        cases w; cases v
        simp_all [vle, vlt, Version.mk.injEq]
        try omega
    · -- "<", "<=", "=<"
      have hd' : d = false := hd
      subst hd'
      cases md with
      | true => exact absurd (hmd rfl) Bool.false_ne_true
      | false =>
        rcases hp with hp | hp | hp <;> rw [hp] at h2 ⊢
        · have h2b : Except.ok (expandLess w false false false) = Except.ok r := h2
          injection h2b with h2b
          subst h2b
          rw [ccheck_lt rfl, satisfies_expandLess_clean, if_neg Bool.false_ne_true]
          unfold constraintLessThan
          rw [if_pos (by simp)]
          rw [decide_eq_decide]
          exact compare_lt_zero_iff v w
        · have h2b : Except.ok (expandLess w false false true) = Except.ok r := h2
          injection h2b with h2b
          subst h2b
          rw [ccheck_lte (Or.inl rfl), satisfies_expandLess_clean, if_pos rfl]
          unfold constraintLessThanEqual
          rw [if_pos (by simp)]
          rw [decide_eq_decide]
          exact compare_nonpos_iff v w
        · have h2b : Except.ok (expandLess w false false true) = Except.ok r := h2
          injection h2b with h2b
          subst h2b
          rw [ccheck_lte (Or.inr rfl), satisfies_expandLess_clean, if_pos rfl]
          unfold constraintLessThanEqual
          rw [if_pos (by simp)]
          rw [decide_eq_decide]
          exact compare_nonpos_iff v w

/-- The clause shapes on which the two pipelines agree (see C10): every
anchored predicate except the tilde family at a zero-filled anchor 0.0.0
and the dirty less-than family, plus the full-wildcard forms whose legacy
callback already accepts everything. -/
def partsSafe (m : ClauseParts) : Bool :=
  if isX m.m3 then
    decide (m.pred = "" ∨ m.pred = "=" ∨ m.pred = "~" ∨ m.pred = "~>" ∨
            m.pred = ">=" ∨ m.pred = "=>")
  else
    match buildLegacy m with
    | .error _ => false
    | .ok c =>
      decide (
        (c.minorDirty = true → c.con.minor = 0 ∧ c.con.patch = 0) ∧
        ((c.dirty = true ∧ c.minorDirty = false) → c.con.patch = 0) ∧
        (m.pred = ">" ∨ m.pred = ">=" ∨ m.pred = "=>" ∨ m.pred = "!=" ∨ m.pred = "^" ∨
         ((m.pred = "" ∨ m.pred = "=") ∧
           (c.dirty = true → ¬(c.con.major = 0 ∧ c.con.minor = 0 ∧ c.con.patch = 0))) ∨
         (m.pred = "~" ∧ ¬(c.con.major = 0 ∧ c.con.minor = 0 ∧ c.con.patch = 0)) ∨
         ((m.pred = "<" ∨ m.pred = "<=" ∨ m.pred = "=<") ∧ c.dirty = false)))

/-- A safe clause is accepted by both pipelines with agreeing semantics. -/
theorem build_agree (m : ClauseParts) (c : constraint) (r : RAC) (v : Version)
    (h1 : buildLegacy m = .ok c) (h2 : buildNu m = .ok r)
    (hs : partsSafe m = true) : ccheck c v = satisfies r v := by
  have h1c := h1
  unfold partsSafe at hs
  rw [buildLegacy] at h1
  rw [buildNu] at h2
  by_cases hx : isX m.m3 = true
  · rw [if_pos hx] at h1 h2 hs
    injection h2 with h2
    subst h2
    rw [buildLegacyCore] at h1
    rw [show verOfChars ("0.0.0".data) = some ⟨0,0,0⟩ from rfl] at h1
    injection h1 with h1
    subst h1
    rw [decide_eq_true_eq] at hs
    rcases hs with h | h | h | h | h | h <;> rw [h]
    · simp [ccheck, constraintTildeOrEqual, constraintTilde, lessThan_zero, satisfies]
    · simp [ccheck, constraintTildeOrEqual, constraintTilde, lessThan_zero, satisfies]
    · simp [ccheck, constraintTilde, lessThan_zero, satisfies]
    · simp [ccheck, constraintTilde, lessThan_zero, satisfies]
    · simp [ccheck, constraintGreaterThanEqual, ge_iff_le, compare_nonneg_iff,
        zero_vle v, satisfies]
    · simp [ccheck, constraintGreaterThanEqual, ge_iff_le, compare_nonneg_iff,
        zero_vle v, satisfies]
  · rw [if_neg hx] at h1 h2 hs
    rw [h1c] at hs
    rw [decide_eq_true_eq] at hs
    obtain ⟨hsA, hsB, hsC⟩ := hs
    by_cases h4 : isX (trimDot m.m4) = true
    · rw [if_pos h4] at h1 h2
      exact core_agree m _ true true c r v h1 h2 (fun _ => rfl) hsA hsB hsC
    · rw [if_neg h4] at h1 h2
      by_cases h5 : isX (trimDot m.m5) = true
      · rw [if_pos h5] at h1 h2
        exact core_agree m _ false true c r v h1 h2
          (fun h => absurd h Bool.false_ne_true) hsA hsB hsC
      · rw [if_neg h5] at h1 h2
        exact core_agree m _ false false c r v h1 h2
          (fun h => absurd h Bool.false_ne_true) hsA hsB hsC

/-- The safety test lifted to a clause text. -/
def clausePairSafe (s : String) : Bool :=
  match matchClause s with
  | Option.none => false
  | some m => partsSafe m

theorem clause_agree (s : String) (c : constraint) (r : RAC) (v : Version)
    (h1 : parseConstraint s = .ok c) (h2 : parseConstraintNu s = .ok r)
    (hs : clausePairSafe s = true) : ccheck c v = satisfies r v := by
  unfold clausePairSafe at hs
  rw [parseConstraint] at h1
  rw [parseConstraintNu] at h2
  cases hm : matchClause s with
  | none =>
    rw [hm] at h1
    exact Except.noConfusion h1
  | some m =>
    rw [hm] at h1 h2 hs
    exact build_agree m c r v h1 h2 hs

/-- Group-level lifting: a comma group whose clauses all parse in both
pipelines and are all safe has its AND of legacy checks agree with the AND
of range-algebra satisfactions. -/
theorem group_agree (v : Version) :
    ∀ (g : List String) (lc : List constraint) (lr : List RAC),
      mapExcept parseConstraint g = .ok lc →
      mapExcept parseConstraintNu g = .ok lr →
      (∀ cl ∈ g, clausePairSafe cl = true) →
      lc.all (fun c => ccheck c v) = lr.all (fun rc => satisfies rc v) := by
  intro g
  induction g with
  | nil =>
    intro lc lr h1 h2 _
    rw [mapExcept] at h1 h2
    injection h1 with h1
    injection h2 with h2
    subst h1
    subst h2
    rfl
  | cons cl rest ih =>
    intro lc lr h1 h2 hsafe
    rw [mapExcept] at h1 h2
    cases hc : parseConstraint cl with
    | error e =>
      rw [hc] at h1
      exact Except.noConfusion h1
    | ok c =>
      rw [hc] at h1
      cases hcs : mapExcept parseConstraint rest with
      | error e =>
        rw [hcs] at h1
        exact Except.noConfusion h1
      | ok cs =>
        rw [hcs] at h1
        injection h1 with h1
        subst h1
        cases hr : parseConstraintNu cl with
        | error e =>
          rw [hr] at h2
          exact Except.noConfusion h2
        | ok rc =>
          rw [hr] at h2
          cases hrs : mapExcept parseConstraintNu rest with
          | error e =>
            rw [hrs] at h2
            exact Except.noConfusion h2
          | ok rcs =>
            rw [hrs] at h2
            injection h2 with h2
            subst h2
            rw [List.all_cons, List.all_cons]
            rw [clause_agree cl c rc v hc hr (hsafe cl (List.mem_cons_self cl rest)),
              ih cs rcs hcs hrs (fun x hx => hsafe x (List.mem_cons_of_mem cl hx))]

/-- Expression-level lifting over the or-groups. -/
theorem exprs_agree (v : Version) :
    ∀ (gs : List (List String)) (lcs : List (List constraint)) (lrs : List (List RAC)),
      mapExcept (fun g => mapExcept parseConstraint g) gs = .ok lcs →
      mapExcept (fun g => mapExcept parseConstraintNu g) gs = .ok lrs →
      (∀ g ∈ gs, ∀ cl ∈ g, clausePairSafe cl = true) →
      lcs.any (fun g => g.all (fun c => ccheck c v)) =
        lrs.any (fun g => g.all (fun rc => satisfies rc v)) := by
  intro gs
  induction gs with
  | nil =>
    intro lcs lrs h1 h2 _
    rw [mapExcept] at h1 h2
    injection h1 with h1
    injection h2 with h2
    subst h1
    subst h2
    rfl
  | cons g rest ih =>
    intro lcs lrs h1 h2 hsafe
    rw [mapExcept] at h1 h2
    cases hc : mapExcept parseConstraint g with
    | error e =>
      rw [hc] at h1
      exact Except.noConfusion h1
    | ok lc =>
      rw [hc] at h1
      cases hcs : mapExcept (fun g => mapExcept parseConstraint g) rest with
      | error e =>
        rw [hcs] at h1
        exact Except.noConfusion h1
      | ok lcss =>
        rw [hcs] at h1
        injection h1 with h1
        subst h1
        cases hr : mapExcept parseConstraintNu g with
        | error e =>
          rw [hr] at h2
          exact Except.noConfusion h2
        | ok lr =>
          rw [hr] at h2
          cases hrs : mapExcept (fun g => mapExcept parseConstraintNu g) rest with
          | error e =>
            rw [hrs] at h2
            exact Except.noConfusion h2
          | ok lrss =>
            rw [hrs] at h2
            injection h2 with h2
            subst h2
            rw [List.any_cons, List.any_cons]
            rw [group_agree v g lc lr hc hr (hsafe g (List.mem_cons_self g rest)),
              ih lcss lrss hcs hrs (fun x hx => hsafe x (List.mem_cons_of_mem g hx))]

end Semver

namespace Semver

theorem any_map_Intersection (lrs : List (List RAC)) (v : Version) :
    (lrs.map Intersection).any (fun c => satisfies c v) =
      lrs.any (fun g => g.all (fun rc => satisfies rc v)) := by
  induction lrs with
  | nil => rfl
  | cons g rest ihh =>
    rw [List.map_cons, List.any_cons, List.any_cons, satisfies_Intersection, ihh]

/-- Claim C10 counterexample: the two pipelines disagree on the clause
~0.0.0, accepted by both parsers: the legacy Check accepts 1.0.0 (the
constraintTilde zero-anchor special case) while the range-algebra
constraint [0.0.0, 0.1.0) rejects it. -/
theorem C10_cex :
    (NewConstraint "~0.0.0").map (fun cs => Check cs ⟨1,0,0⟩) = Except.ok true ∧
    (NewConstraintNu "~0.0.0").map (fun r => satisfies r ⟨1,0,0⟩) = Except.ok false := by
  exact ⟨rfl, rfl⟩

/-- Claim C10 amended: the two pipelines are equivalent on every
constraint text accepted by both whose clauses all have safe shapes
(clausePairSafe): every anchored >, >=, =>, !=, ^ clause, every anchored
""/=/~ clause except the tilde-behaving ones whose zero-filled anchor is
0.0.0, every clean <, <=, =< clause, and the full-wildcard clauses of
predicates "", =, ~, ~>, >=, =>.  The excluded shapes genuinely diverge:
tilde at anchor 0.0.0, wildcard less-than, and full wildcards of ^, >, <,
<=, !=. -/
theorem C10_amended (s : String) (cs : Constraints) (r : RAC) (v : Version)
    (h1 : NewConstraint s = Except.ok cs) (h2 : NewConstraintNu s = Except.ok r)
    (hs : ∀ g ∈ clauseGroupsOf s, ∀ cl ∈ g, clausePairSafe cl = true) :
    Check cs v = satisfies r v := by
  rw [NewConstraint] at h1
  rw [NewConstraintNu] at h2
  cases hc : mapExcept (fun g => mapExcept parseConstraint g) (clauseGroupsOf s) with
  | error e =>
    rw [hc] at h1
    exact Except.noConfusion h1
  | ok lcs =>
    rw [hc] at h1
    injection h1 with h1
    subst h1
    cases hr : mapExcept (fun g => mapExcept parseConstraintNu g) (clauseGroupsOf s) with
    | error e =>
      rw [hr] at h2
      exact Except.noConfusion h2
    | ok lrs =>
      rw [hr] at h2
      injection h2 with h2
      subst h2
      rw [Check_eq_anyAll, satisfies_Union, any_map_Intersection]
      exact exprs_agree v (clauseGroupsOf s) lcs lrs hc hr hs

/-- Witness for C10 amended on "^1.2.3 || 2.x" at version 2.5.0. -/
theorem C10_amended_witness :
    Check ⟨[[⟨constraintMsg "^", ⟨1,2,3⟩, "^", "1.2.3", false, false⟩],
            [⟨constraintMsg "", ⟨2,0,0⟩, "", "2.x", true, true⟩]]⟩ ⟨2,5,0⟩ =
      satisfies (RAC.unionC
        [RAC.intersectionC [RAC.rangeC (some ⟨1,2,3⟩) true (some ⟨2,0,0⟩) false []],
         RAC.intersectionC [RAC.rangeC (some ⟨2,0,0⟩) true (some ⟨3,0,0⟩) false []]])
        ⟨2,5,0⟩ :=
  C10_amended "^1.2.3 || 2.x"
    ⟨[[⟨constraintMsg "^", ⟨1,2,3⟩, "^", "1.2.3", false, false⟩],
      [⟨constraintMsg "", ⟨2,0,0⟩, "", "2.x", true, true⟩]]⟩
    (RAC.unionC
      [RAC.intersectionC [RAC.rangeC (some ⟨1,2,3⟩) true (some ⟨2,0,0⟩) false []],
       RAC.intersectionC [RAC.rangeC (some ⟨2,0,0⟩) true (some ⟨3,0,0⟩) false []]])
    ⟨2,5,0⟩ rfl rfl (by decide)

end Semver
